import Mathlib

/-!
# photo_watermark: a shallow embedding of `main.go`

The program stamps each photo of a directory with the file timestamp and the
number of days between that timestamp and a fixed target date.

The embedding follows `main.go` function by function.  The Go standard
library calls it makes (`time`, `path/filepath`, `strings`, `fmt`) are
embedded from the library sources they stand for; every such definition says
so in its comment.  Machine integers are `Int` with the wrap-around written
out where Go's arithmetic can overflow.
-/

namespace PhotoWatermark

/-! ## Package `time`: instants, locations, the civil calendar -/

/-- Conversion to int64, and the result of int64 arithmetic: the value modulo
2^64, read as signed. -/
def wrapInt64 (x : Int) : Int := (x + 2 ^ 63) % 2 ^ 64 - 2 ^ 63

/-- Conversion to uint64, and the result of uint64 arithmetic. -/
def wrapUint64 (x : Int) : Int := x % 2 ^ 64

/-- Seconds in a day (`secondsPerDay` of package time). -/
def secondsPerDay : Int := 86400

/-- The year the unsigned calendar arithmetic counts from (`absoluteZeroYear` of
package time); it is 1 modulo 400. -/
def absoluteZeroYear : Int := -292277022399

/-- The year of the zero `Time` (`internalYear`). -/
def internalYear : Int := 1

/-- The constant `absoluteToInternal` of package time,
`(absoluteZeroYear - internalYear) * 365.2425 * secondsPerDay`. -/
def absoluteToInternal : Int := (absoluteZeroYear - internalYear) * 31556952

/-- The constant `internalToAbsolute`. -/
def internalToAbsolute : Int := -absoluteToInternal

/-- Seconds from 0001-01-01T00:00:00Z to the Unix epoch (`unixToInternal` of
package time: `(1969*365 + 1969/4 - 1969/100 + 1969/400) * secondsPerDay`). -/
def unixToInternal : Int := (1969 * 365 + 1969 / 4 - 1969 / 100 + 1969 / 400) * secondsPerDay

/-- The constant `internalToUnix`. -/
def internalToUnix : Int := -unixToInternal

/-- A `time.Location`, reduced to the one thing the program reads from it:
the offset east of UTC, in seconds, in effect at a given Unix second
(`Location.lookup`). -/
structure Location where
  lookup : Int → Int

/-- The location `time.UTC`. -/
def UTC : Location := ⟨fun _ => 0⟩

/-- A location with one fixed offset, as built by `time.FixedZone`. -/
def FixedZone (offset : Int) : Location := ⟨fun _ => offset⟩

/-- A `time.Time` without monotonic clock reading.  Go keeps the seconds since
0001-01-01T00:00:00Z in the int64 field `ext`; the embedding names the instant by
its Unix seconds `sec`, with `ext = sec + unixToInternal` (`Time.ext`), so a
value of the Go type is one whose `ext` lies in the int64 range.  `nsec` is the
nanosecond in `[0, 999999999]` and `loc` the location the time is shown in. -/
structure Time where
  sec : Int
  nsec : Int
  loc : Location

/-- The field `ext` of a `time.Time` without monotonic reading (`Time.sec()` in
package time): seconds since 0001-01-01T00:00:00Z. -/
def Time.ext (t : Time) : Int := t.sec + unixToInternal

/-- The method `Time.unixSec`: `t.sec() + internalToUnix` in int64. -/
def Time.unixSec (t : Time) : Int := wrapInt64 (t.ext + internalToUnix)

/-- The constructor `unixTime(sec, nsec)` of package time, with the location
set: `ext = sec + unixToInternal` in int64. -/
def unixTime (sec nsec : Int) (loc : Location) : Time :=
  ⟨wrapInt64 (sec + unixToInternal) - unixToInternal, nsec, loc⟩

/-- The method `Time.abs`: the wall-clock seconds of `t` in its location, counted
as a uint64 from the start of `absoluteZeroYear`:
`uint64(sec + (unixToInternal + internalToAbsolute))` with
`sec = t.unixSec() + offset` in int64. -/
def Time.abs (t : Time) : Int :=
  let sec := t.unixSec
  let sec := wrapInt64 (sec + t.loc.lookup sec)
  wrapUint64 (sec + (unixToInternal + internalToAbsolute))

/-- Leap-year test (`isLeap` of package time). -/
def isLeap (year : Int) : Bool :=
  year % 4 = 0 && (year % 100 != 0 || year % 400 = 0)

/-- Days before the start of each month of a non-leap year, with the total as a
13th entry (`daysBefore` of package time). -/
def daysBeforeTable : List Int :=
  [0, 31, 31 + 28, 31 + 28 + 31, 31 + 28 + 31 + 30, 31 + 28 + 31 + 30 + 31,
   31 + 28 + 31 + 30 + 31 + 30, 31 + 28 + 31 + 30 + 31 + 30 + 31,
   31 + 28 + 31 + 30 + 31 + 30 + 31 + 31, 31 + 28 + 31 + 30 + 31 + 30 + 31 + 31 + 30,
   31 + 28 + 31 + 30 + 31 + 30 + 31 + 31 + 30 + 31,
   31 + 28 + 31 + 30 + 31 + 30 + 31 + 31 + 30 + 31 + 30,
   31 + 28 + 31 + 30 + 31 + 30 + 31 + 31 + 30 + 31 + 30 + 31]

/-- Table lookup `daysBefore[i]`. -/
def daysBefore (i : Int) : Int := daysBeforeTable.getD i.toNat 0

/-- A year and a zero-based day within it: the first half of `absDate`. -/
structure YearDay where
  year : Int
  yday : Int
deriving Repr, DecidableEq

/-- The year part of `absDate`, on a count of days from the start of
`absoluteZeroYear`: peel off 400-year, 100-year, 4-year and 1-year cycles.
`n >> 2` of the Go source is `n / 4`; the count is unsigned and below 2^64, so
none of the steps overflows. -/
def absYear (d : Int) : YearDay :=
  let n400 := d / 146097
  let d1 := d - 146097 * n400
  let n100 := d1 / 36524
  let n100 := n100 - n100 / 4
  let d2 := d1 - 36524 * n100
  let n4 := d2 / 1461
  let d3 := d2 - 1461 * n4
  let n1 := d3 / 365
  let n1 := n1 - n1 / 4
  let d4 := d3 - 365 * n1
  ⟨400 * n400 + 100 * n100 + 4 * n4 + n1 + absoluteZeroYear, d4⟩

/-- A civil date as `absDate` returns it. -/
structure CivilDate where
  year : Int
  month : Int
  day : Int
  yday : Int
deriving Repr, DecidableEq

/-- The month and day part of `absDate`, from the year and the day of the year. -/
def monthDay (year yday : Int) : CivilDate :=
  if isLeap year && yday == 31 + 29 - 1 then
    ⟨year, 2, 29, yday⟩
  else
    let day := if isLeap year && yday > 31 + 29 - 1 then yday - 1 else yday
    let month := day / 31
    let stop := daysBefore (month + 1)
    if day ≥ stop then
      ⟨year, month + 1 + 1, day - stop + 1, yday⟩
    else
      ⟨year, month + 1, day - daysBefore month + 1, yday⟩

/-- The function `absDate(abs, true)` of package time, on the uint64 that
`Time.abs` returns. -/
def absDate (abs : Int) : CivilDate :=
  let yd := absYear (abs / secondsPerDay)
  monthDay yd.year yd.yday

/-- The method `Time.Year`. -/
def Time.Year (t : Time) : Int := (absDate t.abs).year

/-- The method `Time.Month` (January is 1). -/
def Time.Month (t : Time) : Int := (absDate t.abs).month

/-- The method `Time.Day`. -/
def Time.Day (t : Time) : Int := (absDate t.abs).day

/-- The helper `norm(hi, lo, base)` of package time.  (Its arguments here are a
year and a month that `absDate` returned, far from the limits of `int`.) -/
def norm (hi lo base : Int) : Int × Int :=
  let (hi, lo) :=
    if lo < 0 then
      let n := (-lo - 1) / base + 1
      (hi - n, lo + n * base)
    else (hi, lo)
  if lo ≥ base then
    let n := lo / base
    (hi + n, lo - n * base)
  else (hi, lo)

/-- The function `daysSinceEpoch` of package time: days from the start of
`absoluteZeroYear` to January 1 of `year`, in uint64 arithmetic. -/
def daysSinceEpoch (year : Int) : Int :=
  let y := wrapUint64 (wrapInt64 year - absoluteZeroYear)
  let n400 := y / 400
  let y1 := y - 400 * n400
  let n100 := y1 / 100
  let y2 := y1 - 100 * n100
  let n4 := y2 / 4
  let y3 := y2 - 4 * n4
  wrapUint64 (146097 * n400 + 36524 * n100 + 1461 * n4 + 365 * y3)

/-- The call `time.Date(year, month, day, 0, 0, 0, 0, time.UTC)`, the only form
in which the program calls `time.Date`: the hour, minute, second and nanosecond
are zero, so their normalisation steps do nothing, and the location is UTC, so
no zone offset is subtracted.  The day count and the seconds are uint64, the Unix
seconds `int64(abs) + (absoluteToInternal + internalToUnix)` and the field `ext`
are int64. -/
def Date (year month day : Int) : Time :=
  let m := month - 1
  let (year, m) := norm year m 12
  let month := m + 1
  let d := daysSinceEpoch year
  let d := wrapUint64 (d + daysBefore (month - 1))
  let d := if isLeap year && month ≥ 3 then wrapUint64 (d + 1) else d
  let d := wrapUint64 (d + (day - 1))
  let abs := wrapUint64 (d * secondsPerDay)
  let unix := wrapInt64 (abs + (absoluteToInternal + internalToUnix))
  unixTime unix 0 UTC

/-- The smallest `time.Duration`, an int64 count of nanoseconds. -/
def minDuration : Int := -(2 ^ 63)

/-- The largest `time.Duration`. -/
def maxDuration : Int := 2 ^ 63 - 1

/-- One hour as a `time.Duration`. -/
def Hour : Int := 60 * 60 * 1000000000

/-- The method `Time.addSec` on the field `ext`: add `d` seconds, saturating at
the ends of the int64 range instead of wrapping. -/
def addSec (ext d : Int) : Int :=
  let sum := wrapInt64 (ext + d)
  if decide (sum > ext) = decide (d > 0) then sum
  else if d > 0 then 2 ^ 63 - 1
  else -(2 ^ 63 - 1)

/-- The method `Time.Add` for a time without monotonic reading: whole seconds
and nanoseconds of the duration are added separately, with a carry. -/
def Time.Add (t : Time) (d : Int) : Time :=
  let dsec := Int.tdiv d 1000000000
  let nsec := t.nsec + Int.tmod d 1000000000
  if nsec ≥ 1000000000 then
    ⟨addSec t.ext (dsec + 1) - unixToInternal, nsec - 1000000000, t.loc⟩
  else if nsec < 0 then
    ⟨addSec t.ext (dsec - 1) - unixToInternal, nsec + 1000000000, t.loc⟩
  else
    ⟨addSec t.ext dsec - unixToInternal, nsec, t.loc⟩

/-- The method `Time.Equal` for times without monotonic reading. -/
def Time.Equal (t u : Time) : Bool := t.ext == u.ext && t.nsec == u.nsec

/-- The method `Time.Before` for times without monotonic reading. -/
def Time.Before (t u : Time) : Bool :=
  decide (t.ext < u.ext) || (t.ext == u.ext && decide (t.nsec < u.nsec))

/-- The method `Time.Sub` for times without monotonic reading.  The
difference is computed in int64 nanoseconds, where it may wrap; it is kept when
adding it back to `u` gives `t`, and replaced by the smallest or largest
duration otherwise. -/
def Time.Sub (t u : Time) : Int :=
  let d := wrapInt64 (wrapInt64 (wrapInt64 (t.ext - u.ext) * 1000000000) + (t.nsec - u.nsec))
  if (u.Add d).Equal t then d
  else if t.Before u then minDuration
  else maxDuration

/-- The method `Duration.Hours`: `float64(d / Hour) + float64(d % Hour) / (60*60*1e9)`
with the truncated integer division of Go.  The float64 values are embedded as
exact rationals.  For the durations `calculateDaysDifference` produces this is
what float64 computes: an unsaturated difference of two midnights is a multiple
of 24 hours below 2^53, so every operand and result is an exactly represented
integer; at the two saturated durations the float64 result is within 2^-30 of
the rational one, far from the next integer. -/
def Duration.Hours (d : Int) : ℚ :=
  (Int.tdiv d Hour : ℚ) + (Int.tmod d Hour : ℚ) / (60 * 60 * 1000000000)

/-- The conversion `int(x)` of a float64: the fractional part is discarded. -/
def truncToInt (x : ℚ) : Int := Int.tdiv x.num x.den

/-- The zero value `time.Time{}`: 0001-01-01T00:00:00 UTC. -/
def Time.zero : Time := ⟨-unixToInternal, 0, UTC⟩

/-- The method `Time.IsZero`: the instant is 0001-01-01T00:00:00 UTC, that is,
the seconds counted from year 1 and the nanoseconds are both zero. -/
def Time.IsZero (t : Time) : Bool :=
  t.ext == 0 && t.nsec == 0

/-- The function `time.Unix(sec, nsec)` on two int64: the instant `sec` seconds
and `nsec` nanoseconds after the Unix epoch, in the local location, with `nsec`
brought into `[0, 999999999]`. -/
def Unix (Local : Location) (sec nsec : Int) : Time :=
  if nsec < 0 ∨ nsec ≥ 1000000000 then
    let n := Int.tdiv nsec 1000000000
    let sec := wrapInt64 (sec + n)
    let nsec := nsec - n * 1000000000
    if nsec < 0 then unixTime (wrapInt64 (sec - 1)) (nsec + 1000000000) Local
    else unixTime sec nsec Local
  else unixTime sec nsec Local

/-- Hour, minute and second of the uint64 that `Time.abs` returns (`absClock` of
package time). -/
def absClock (abs : Int) : Int × Int × Int :=
  let sec := abs % secondsPerDay
  let hour := sec / 3600
  let sec := sec - hour * 3600
  let min := sec / 60
  let sec := sec - min * 60
  (hour, min, sec)

/-- The byte `'0' + d`. -/
def digitChar (d : Nat) : Char := Char.ofNat (48 + d)

/-- The digit loop shared by `appendInt` of package time and `fmtInteger` of
package fmt: write the decimal digits of `u` right to left in front of `acc`.
    for u >= 10 (i--; q := u / 10; buf[i] = byte(48 + u - q*10); u = q)
    i--; buf[i] = byte(48 + u)
The first argument bounds the number of turns; `u` itself is always enough. -/
def digitLoop : Nat → Nat → List Char → List Char
  | 0, u, acc => digitChar u :: acc
  | fuel + 1, u, acc =>
    if u ≥ 10 then
      let q := u / 10
      digitLoop fuel q (digitChar (u - q * 10) :: acc)
    else digitChar u :: acc

/-- The helper `appendInt(b, x, width)` of package time: a minus sign for a
negative `x`, then the decimal digits of its magnitude, padded on the left with
zeros to `width` digits.  (Later releases add table-driven shortcuts for two and
four digits that write the same bytes.) -/
def appendInt (b : List Char) (x : Int) (width : Nat) : List Char :=
  let b := if x < 0 then b ++ ['-'] else b
  let u := x.natAbs
  let buf := digitLoop u u []
  b ++ List.replicate (width - buf.length) '0' ++ buf

/-- The call `t.Format("2006-01-02 15:04:05")`: the layout is the chunks
stdLongYear, "-", stdZeroMonth, "-", stdZeroDay, " ", stdHour, ":",
stdZeroMinute, ":", stdZeroSecond, each number written by `appendInt` from
the date and clock of `t` in its own location. -/
def Time.Format (t : Time) : String :=
  let c := absDate t.abs
  let (hour, min, sec) := absClock t.abs
  let b := appendInt [] c.year 4
  let b := b ++ ['-']
  let b := appendInt b c.month 2
  let b := b ++ ['-']
  let b := appendInt b c.day 2
  let b := b ++ [' ']
  let b := appendInt b hour 2
  let b := b ++ [':']
  let b := appendInt b min 2
  let b := b ++ [':']
  let b := appendInt b sec 2
  ⟨b⟩

/-- The verb `%d` of package fmt on an int (`fmtInteger` in base 10 without
flags): a minus sign for a negative value, then the digits, no padding. -/
def fmtInteger (x : Int) : List Char :=
  let u := x.natAbs
  let buf := digitLoop u u []
  if x < 0 then '-' :: buf else buf

/-- The call `fmt.Sprintf("%s (%d)", s, d)`. -/
def Sprintf (s : String) (d : Int) : String :=
  ⟨s.data ++ [' ', '('] ++ fmtInteger d ++ [')']⟩

/-! ## Packages `path/filepath` and `strings` (Unix) -/

/-- The separator test `os.IsPathSeparator` on Unix. -/
def isPathSeparator (c : Char) : Bool := c == '/'

/-- The scan of `filepath.Ext`, on the reversed path: walk back from the end
until a separator; at the first dot return the suffix that starts there. -/
def extScan : List Char → List Char → List Char
  | [], _ => []
  | c :: rest, acc =>
    if isPathSeparator c then []
    else if c = '.' then c :: acc
    else extScan rest (c :: acc)

/-- The function `filepath.Ext`: the suffix beginning at the final dot of the
final element of the path, empty if there is no dot. -/
def Ext (path : String) : String := ⟨extScan path.data.reverse []⟩

/-- The function `strings.ToLower`.  Letters A to Z are mapped to a to z.  Go
also maps the upper-case letters outside ASCII by the Unicode tables; the only
ones it maps into ASCII are U+0130, to i, and U+212A, to k, so none is mapped to
a dot or to one of the letters e, g, j, n, p: the comparisons the program makes
with ".jpg", ".jpeg" and ".png" come out the same, and the embedding leaves the
characters outside ASCII as they are. -/
def ToLower (s : String) : String := ⟨s.data.map Char.toLower⟩

/-- Split a path at its separators: `splitSep "a//b" = ["a", "", "b"]`. -/
def splitSep : List Char → List (List Char)
  | [] => [[]]
  | c :: cs =>
    if isPathSeparator c then [] :: splitSep cs
    else
      match splitSep cs with
      | [] => [[c]]
      | e :: es => (c :: e) :: es

/-- One turn of the loop of `filepath.Clean`, element by element.  The state
is the list of elements written to the output so far and `dotdot`, the number
of leading elements that a ".." may not remove (the ".." elements kept at the
front of a relative path).  An empty element and "." are dropped; ".." removes
the last written element when there is one to remove, is kept at the front of
a relative path otherwise, and is dropped at the root; any other element is
written. -/
def cleanStep (rooted : Bool) (st : List (List Char) × Nat) (e : List Char) :
    List (List Char) × Nat :=
  if e = [] then st
  else if e = ['.'] then st
  else if e = ['.', '.'] then
    if st.1.length > st.2 then (st.1.dropLast, st.2)
    else if !rooted then (st.1 ++ [e], st.1.length + 1)
    else st
  else (st.1 ++ [e], st.2)

/-- Elements joined by the separator. -/
def joinSep : List (List Char) → List Char
  | [] => []
  | [e] => e
  | e :: es => e ++ '/' :: joinSep es

/-- The function `filepath.Clean` on Unix: the shortest equivalent path.  The
Go loop reads the path element by element into an output buffer; here the
buffer is the list of elements written (`cleanStep`).  An empty result is ".". -/
def cleanChars (path : List Char) : List Char :=
  match path with
  | [] => ['.']
  | c :: _ =>
    let rooted := isPathSeparator c
    let out := (splitSep path).foldl (cleanStep rooted) ([], 0)
    if rooted then '/' :: joinSep out.1
    else if out.1 = [] then ['.']
    else joinSep out.1

/-- The function `filepath.Clean`. -/
def Clean (path : String) : String := ⟨cleanChars path.data⟩

/-- The call `filepath.Join(a, b)`: the non-empty elements joined by the
separator, then cleaned; the empty string when both are empty. -/
def Join (a b : String) : String :=
  if a ≠ "" then Clean ⟨a.data ++ '/' :: b.data⟩
  else if b ≠ "" then Clean b
  else ""

/-- Drop the separators at the front of a list (used on the reversed path to
strip trailing separators). -/
def dropSeps : List Char → List Char
  | [] => []
  | c :: cs => if isPathSeparator c then dropSeps cs else c :: cs

/-- Take characters up to the first separator. -/
def takeElem : List Char → List Char
  | [] => []
  | c :: cs => if isPathSeparator c then [] else c :: takeElem cs

/-- The function `filepath.Base`: the last element of the path, after trailing
separators are removed; "." for the empty path and "/" for a path of
separators only. -/
def Base (path : String) : String :=
  if path = "" then "."
  else
    let stripped := dropSeps path.data.reverse
    let last := (takeElem stripped).reverse
    if last = [] then "/" else ⟨last⟩

/-! ## `main.go` -/

/-- The constant `inputDir`. -/
def inputDir : String := "/Users/hankangkang/Downloads/photos"

/-- The constant `outputDir`. -/
def outputDir : String := "./output_images"

/-- The constant `watermarkOffsetX`. -/
def watermarkOffsetX : Int := 100

/-- The constant `watermarkOffsetY`. -/
def watermarkOffsetY : Int := 100

/-- The global `targetDate` as `main` sets it: `time.Parse("2006-01-02", targetDateStr)`
with `targetDateStr = "2024-10-03"`, which is midnight of that date in UTC. -/
def targetDate : Time := Date 2024 10 3

/-- The function `calculateDaysDifference` of `main.go`. -/
def calculateDaysDifference (t1 t2 : Time) : Int :=
  let t1Day := Date t1.Year t1.Month t1.Day
  let t2Day := Date t2.Year t2.Month t2.Day
  let diff := t2Day.Sub t1Day
  let days := truncToInt (Duration.Hours diff / 24)
  days

/-- The duration `diff` inside `calculateDaysDifference`. -/
def midnightDiff (t1 t2 : Time) : Int :=
  (Date t2.Year t2.Month t2.Day).Sub (Date t1.Year t1.Month t1.Day)

/-- A `syscall.Timespec`. -/
structure Timespec where
  Sec : Int
  Nsec : Int

/-- What `processImage` reads from the `os.FileInfo` of the opened file: the
modification time, and the result of `fileInfo.Sys().(*syscall.Stat_t)`, which is
`some` of the field `Birthtimespec` when the type assertion succeeds and `none`
when it does not. -/
structure FileInfo where
  ModTime : Time
  Birthtimespec : Option Timespec

/-- The outcome of lines 71 to 91 of `processImage`. -/
structure Resolved where
  timestampToUse : Time
  timeType : String
  warned : Bool

/-- The variable `creationTime` of `processImage` after line 79: the zero time,
overwritten with `time.Unix` of the birth time when the assertion succeeded. -/
def creationTime (Local : Location) (fileInfo : FileInfo) : Time :=
  match fileInfo.Birthtimespec with
  | some ts => Unix Local ts.Sec ts.Nsec
  | none => Time.zero

/-- Lines 82 to 91 of `processImage`: the creation time unless it is the zero
time, else the modification time together with the warning. -/
def resolveTimestamp (Local : Location) (fileInfo : FileInfo) : Resolved :=
  let creationTime := creationTime Local fileInfo
  if !creationTime.IsZero then ⟨creationTime, "创建", false⟩
  else ⟨fileInfo.ModTime, "修改", true⟩

/-- Lines 94 to 99 of `processImage`: the day difference, the formatted date
and the text put together from them. -/
def watermarkText (targetDate timestampToUse : Time) : String :=
  let daysDiff := calculateDaysDifference targetDate timestampToUse
  let dateStr := timestampToUse.Format
  Sprintf dateStr daysDiff

/-- An `image.Point`. -/
structure Point where
  X : Int
  Y : Int
deriving DecidableEq, Repr

/-- An `image.Rectangle`. -/
structure Rectangle where
  Min : Point
  Max : Point
deriving DecidableEq, Repr

/-- A `fixed.Point26_6`: two `fixed.Int26_6`, each an int32 holding a value in
units of 1/64. -/
structure Point26_6 where
  X : Int
  Y : Int
deriving DecidableEq, Repr

/-- Conversion of an integer to int32: the low 32 bits, read as signed. -/
def toInt32 (x : Int) : Int := (x + 2 ^ 31) % 2 ^ 32 - 2 ^ 31

/-- The field `Dot` of the `font.Drawer` built at lines 124 to 134. -/
def drawerDot (bounds : Rectangle) : Point26_6 :=
  { X := toInt32 (watermarkOffsetX * 64)
    Y := toInt32 ((bounds.Max.Y - watermarkOffsetY) * 64) }

/-- Line 138 of `processImage`. -/
def outputFilePath (filePath : String) : String :=
  Join outputDir (Base filePath)

/-- What the operating system and the decoders answer to the calls `processImage`
makes for one file: whether `os.Open` succeeds, the result of `file.Stat`
(`none` for an error), whether `file.Seek` succeeds, the result of
`image.Decode` (`none` for an error, else the bounds of the image and the
format name), whether `os.Create` succeeds and whether `png.Encode` succeeds. -/
structure FileEnv where
  openOk : Bool
  stat : Option FileInfo
  seekOk : Bool
  decode : Option (Rectangle × String)
  createOk : Bool
  encodeOk : Bool

/-- The lines `processImage` and `main` log, by the call that writes them and
the arguments it formats (error values left out). -/
inductive LogLine where
  | openError (filePath : String)
  | statError (filePath : String)
  | fallbackWarning (base : String)
  | seekError (filePath : String)
  | decodeWarning (filePath : String)
  | processing (base format timeType : String)
  | createError (outputFilePath : String)
  | encodeError (outputFilePath : String)
  | success (outputFilePath : String)
  | skipped (name : String)
  | noneFound
  | summary (processedCount : Nat)
deriving DecidableEq, Repr

/-- The effects of one call of `processImage`: the lines logged, the call
`d.DrawString(watermarkText)` with the dot it starts from when it is reached,
the path handed to `os.Create` when that call succeeded (the output file was
created or truncated), and whether `png.Encode` wrote the image into it. -/
structure Outcome where
  log : List LogLine
  drawn : Option (Point26_6 × String)
  created : Option String
  encoded : Bool
deriving DecidableEq, Repr

/-- The function `processImage` of `main.go`, for a call in which every library
call returns, as a function of what the system answers for the file.  The global `targetDate` and the local location that
`time.Unix` attaches are arguments.  Every `return` of the Go function is one of
the results below; the function has no other exit.  The pixels are not
embedded: of the canvas and the drawing, the result keeps the call of
`DrawString` with its start point and text (the calls between a successful
decode and `os.Create` have no error result). -/
def processImage (Local : Location) (targetDate : Time) (env : FileEnv)
    (filePath : String) : Outcome :=
  if !env.openOk then
    ⟨[LogLine.openError filePath], none, none, false⟩
  else
    match env.stat with
    | none => ⟨[LogLine.statError filePath], none, none, false⟩
    | some fileInfo =>
      let r := resolveTimestamp Local fileInfo
      let log := if r.warned then [LogLine.fallbackWarning (Base filePath)] else []
      let watermarkText := watermarkText targetDate r.timestampToUse
      if !env.seekOk then
        ⟨log ++ [LogLine.seekError filePath], none, none, false⟩
      else
        match env.decode with
        | none => ⟨log ++ [LogLine.decodeWarning filePath], none, none, false⟩
        | some (bounds, format) =>
          let log := log ++ [LogLine.processing (Base filePath) format r.timeType]
          let drawn := some (drawerDot bounds, watermarkText)
          let outputFilePath := outputFilePath filePath
          if !env.createOk then
            ⟨log ++ [LogLine.createError outputFilePath], drawn, none, false⟩
          else if !env.encodeOk then
            ⟨log ++ [LogLine.encodeError outputFilePath], drawn, some outputFilePath, false⟩
          else
            ⟨log ++ [LogLine.success outputFilePath], drawn, some outputFilePath, true⟩

/-- An `os.DirEntry`, as far as `main` reads it. -/
structure DirEntry where
  Name : String
  IsDir : Bool
deriving DecidableEq, Repr

/-- How one call of `processImage` ends.  Either every library call made for the
file returns, with the answers of a `FileEnv`, and `processImage` returns; or the
process ends inside the call, between `os.Open` and `os.Create`:
`image.Decode` or `image.NewRGBA` runs out of memory on the dimensions the file
declares, which is a fatal error of the Go runtime, and `main.go` has no
`recover` in any case. -/
inductive Fate where
  | returns (env : FileEnv)
  | dies

/-- The state of the loop of `main`: the calls of `processImage` that returned so
far, each with its argument and its effects, the lines `main` itself logged, the
counter `processedCount`, and whether the process has ended inside a call. -/
structure Run where
  calls : List (String × Outcome)
  log : List LogLine
  processedCount : Nat
  died : Bool

/-- The test at line 213 of `main`. -/
def supportedExt (ext : String) : Bool :=
  ext == ".jpg" || ext == ".jpeg" || ext == ".png"

/-- One turn of the loop at lines 206 to 219 of `main`.  Once the process has
ended nothing more happens. -/
def mainStep (Local : Location) (fate : String → Fate) (run : Run) (file : DirEntry) : Run :=
  if run.died then run
  else if file.IsDir then run
  else
    let filePath := Join inputDir file.Name
    let ext := ToLower (Ext filePath)
    if supportedExt ext then
      match fate filePath with
      | Fate.returns env =>
        { run with
          calls := run.calls ++ [(filePath, processImage Local targetDate env filePath)]
          processedCount := run.processedCount + 1 }
      | Fate.dies => { run with died := true }
    else
      { run with log := run.log ++ [LogLine.skipped file.Name] }

/-- The function `main` of `main.go` from line 204 on, given the listing
`os.ReadDir` returned and, for every path, how the call of `processImage` on it
ends.  The steps before (parsing the target date, loading the font, checking
and creating the directories, reading the listing) are taken to have
succeeded.  A process that ended inside a call logs no summary. -/
def main (Local : Location) (fate : String → Fate) (files : List DirEntry) : Run :=
  let run := files.foldl (mainStep Local fate) ⟨[], [], 0, false⟩
  if run.died then run
  else if run.processedCount = 0 then
    { run with log := run.log ++ [LogLine.noneFound] }
  else
    { run with log := run.log ++ [LogLine.summary run.processedCount] }

/-! ## Reference notions the properties are stated against -/

/-- The day number of the UTC calendar date of an instant: whole days from
0001-01-01T00:00:00Z. -/
def utcDay (t : Time) : Int := (t.sec + unixToInternal) / secondsPerDay

/-- The wall-clock reading of `t` in its own location, in seconds from
0001-01-01T00:00:00, as an exact integer. -/
def Time.wall (t : Time) : Int := t.sec + t.loc.lookup t.sec + unixToInternal

/-- The day number of the calendar date shown by `t` in its own location. -/
def wallDay (t : Time) : Int := t.wall / secondsPerDay

/-- The timestamps on which the arithmetic of package time does not overflow:
the Unix seconds and the field `ext` fit an int64, and the wall-clock reading
lies between the start of `absoluteZeroYear` (the year -292277022399) and the
largest int64 (in the year 292277024627). -/
def Time.inRange (t : Time) : Prop :=
  -(2 ^ 63) ≤ t.sec ∧ t.ext ≤ 2 ^ 63 - 1 ∧ absoluteToInternal ≤ t.wall ∧ t.wall ≤ 2 ^ 63 - 1

instance (t : Time) : Decidable t.inRange := by
  unfold Time.inRange; infer_instance

/-- The same instant displayed in another location (`Time.In`). -/
def Time.In (t : Time) (loc : Location) : Time := { t with loc := loc }

/-- The day count `Date` rebuilds from a year, a month in 1..12 and a day,
before any wrap-around. -/
def civilToDays (year month day : Int) : Int :=
  (if isLeap year && month ≥ 3 then
      daysSinceEpoch year + daysBefore (month - 1) + 1
    else daysSinceEpoch year + daysBefore (month - 1)) + (day - 1)

/-- The value an int64 duration takes for an exact difference `d` in nanoseconds. -/
def clampDuration (d : Int) : Int :=
  if d < minDuration then minDuration else if maxDuration < d then maxDuration else d

/-- A name `os.ReadDir` can return for a directory entry: not empty, without a
separator, and neither "." nor "..". -/
def IsEntryName (name : String) : Prop :=
  name.data ≠ [] ∧ '/' ∉ name.data ∧ name.data ≠ ['.'] ∧
    name.data ≠ ['.', '.']

/-- The extension of a file name: the part from its last dot on, empty when the
name has no dot. -/
def nameExt : List Char → List Char
  | [] => []
  | c :: cs =>
    if '.' ∈ cs then nameExt cs
    else if c = '.' then c :: cs
    else []

/-- A qualifying entry: not a directory, and the extension of
its name, in lower case, is ".jpg", ".jpeg" or ".png". -/
def qualifies (e : DirEntry) : Bool :=
  !e.IsDir &&
    decide ((nameExt e.Name.data).map Char.toLower ∈
      [".jpg".data, ".jpeg".data, ".png".data])

/-- The path of an entry of the input directory: directory, separator, name. -/
def entryPath (name : String) : String :=
  ⟨inputDir.data ++ '/' :: name.data⟩

/-- Every step of `processImage` succeeds for this file. -/
def FileEnv.allOk (env : FileEnv) : Bool :=
  env.openOk && env.stat.isSome && env.seekOk && env.decode.isSome && env.createOk &&
    env.encodeOk

instance (name : String) : Decidable (IsEntryName name) := by
  unfold IsEntryName; infer_instance

/-- The test `main` applies to an entry, as the code writes it: not a directory,
and the lower-cased `filepath.Ext` of the joined path is a supported one. -/
def selects (e : DirEntry) : Bool :=
  !e.IsDir && supportedExt (ToLower (Ext (Join inputDir e.Name)))

/-- The runs in which every call of `processImage` returns: each path is given
the answers of a `FileEnv`. -/
def returning (env : String → FileEnv) : String → Fate := fun p => Fate.returns (env p)

/-- The call of `processImage` that `main` makes for an entry, with its effects. -/
def callFor (Local : Location) (env : String → FileEnv) (e : DirEntry) : String × Outcome :=
  (Join inputDir e.Name,
    processImage Local targetDate (env (Join inputDir e.Name)) (Join inputDir e.Name))

/-- The output files the run created (or truncated): the paths `os.Create`
opened. -/
def Run.created (r : Run) : List String :=
  r.calls.filterMap (fun c => c.2.created)

/-- The output files the run wrote an image to: created, and `png.Encode`
succeeded. -/
def Run.written (r : Run) : List String :=
  r.calls.filterMap (fun c => if c.2.encoded then c.2.created else none)

/-- The output path of an entry of the input directory: "output_images", a
separator, the name of the entry. -/
def outputPathOf (name : String) : String :=
  ⟨"output_images".data ++ '/' :: name.data⟩

/-- A listing of one .png, one .jpg, one .txt and one subdirectory. -/
def sampleListing : List DirEntry :=
  [⟨"a.png", false⟩, ⟨"b.jpg", false⟩, ⟨"notes.txt", false⟩, ⟨"sub", true⟩]

/-- A system on which every `os.Open` fails. -/
def failingEnv : String → FileEnv := fun _ => ⟨false, none, false, none, false, false⟩

/-- File information of a file modified at 2024-10-03T16:30:00Z, shown eight
hours east of UTC, for which the platform structure is not available. -/
def sampleInfo : FileInfo := ⟨⟨1727973000, 0, FixedZone 28800⟩, none⟩

/-- Answers of a file of 640 by 480 pixels for which every step succeeds. -/
def goodEnv : FileEnv :=
  ⟨true, some sampleInfo, true, some (⟨⟨0, 0⟩, ⟨640, 480⟩⟩, "png"), true, true⟩

/-- Answers of a file that opens but does not decode. -/
def corruptEnv : FileEnv := ⟨true, some sampleInfo, true, none, true, true⟩

/-- A system on which "b.jpg" is corrupt and every other file is good. -/
def mixedEnv : String → FileEnv :=
  fun p => if p = "/Users/hankangkang/Downloads/photos/b.jpg" then corruptEnv else goodEnv

/-- A listing of a file whose decoding ends the process, then a good file. -/
def fatalListing : List DirEntry := [⟨"huge.png", false⟩, ⟨"good.png", false⟩]

/-- The process ends inside the call for "huge.png"; every other file is good. -/
def fatalFate : String → Fate :=
  fun p => if p = "/Users/hankangkang/Downloads/photos/huge.png" then Fate.dies
    else Fate.returns goodEnv

/-- Answers of a file of 1 by 33554532 pixels for which every step succeeds. -/
def tallEnv : FileEnv :=
  ⟨true, some sampleInfo, true, some (⟨⟨0, 0⟩, ⟨1, 33554532⟩⟩, "png"), true, true⟩

/-- The hour of the day `t` shows in its location (the method `Time.Hour`). -/
def wallHour (t : Time) : Int := t.abs % secondsPerDay / 3600

/-- The minute of the hour `t` shows (the method `Time.Minute`). -/
def wallMinute (t : Time) : Int := t.abs % 3600 / 60

/-- The second of the minute `t` shows (the method `Time.Second`). -/
def wallSecond (t : Time) : Int := t.abs % 60

/-- A number below 100 as two decimal digits. -/
def twoDigits (n : Int) : List Char :=
  [digitChar (n.toNat / 10), digitChar (n.toNat % 10)]

/-- A number below 10000 as four decimal digits. -/
def fourDigits (n : Int) : List Char :=
  [digitChar (n.toNat / 1000), digitChar (n.toNat / 100 % 10), digitChar (n.toNat / 10 % 10),
    digitChar (n.toNat % 10)]

/-- The text "YYYY-MM-DD HH:MM:SS" for the date and clock `t` shows. -/
def dateTimeChars (t : Time) : List Char :=
  fourDigits t.Year ++ '-' :: twoDigits t.Month ++ '-' :: twoDigits t.Day ++
    ' ' :: twoDigits (wallHour t) ++ ':' :: twoDigits (wallMinute t) ++
    ':' :: twoDigits (wallSecond t)

/-- The decimal digits of a natural number, most significant first, "0" for zero. -/
def decimalDigits (n : Nat) : List Char :=
  if n = 0 then [digitChar 0] else ((Nat.digits 10 n).reverse).map digitChar

/-- The decimal representation of an integer: a minus sign when negative, then
the digits of the magnitude, no padding. -/
def decimalRepr (k : Int) : List Char :=
  if k < 0 then '-' :: decimalDigits k.natAbs else decimalDigits k.natAbs

/-! ## The civil calendar round trip -/

theorem daysBefore_vals : daysBefore 0 = 0 ∧ daysBefore 1 = 31 ∧ daysBefore 2 = 59 ∧
    daysBefore 3 = 90 ∧ daysBefore 4 = 120 ∧ daysBefore 5 = 151 ∧ daysBefore 6 = 181 ∧
    daysBefore 7 = 212 ∧ daysBefore 8 = 243 ∧ daysBefore 9 = 273 ∧ daysBefore 10 = 304 ∧
    daysBefore 11 = 334 ∧ daysBefore 12 = 365 := by
  decide

theorem monthEstimate (day : Int) (h0 : 0 ≤ day) (h1 : day ≤ 364) :
    (day ≥ daysBefore (day / 31 + 1) →
      day / 31 + 1 + 1 ≤ 12 ∧ (day / 31 + 1 + 1 ≥ 3 ↔ 59 ≤ day) ∧
      daysBefore (day / 31 + 1 + 1 - 1) = daysBefore (day / 31 + 1) ∧
      day - daysBefore (day / 31 + 1) + 1 ≤ 31) ∧
    (¬ day ≥ daysBefore (day / 31 + 1) →
      (day / 31 + 1 ≥ 3 ↔ 59 ≤ day) ∧ daysBefore (day / 31 + 1 - 1) = daysBefore (day / 31) ∧
      1 ≤ day - daysBefore (day / 31) + 1 ∧ day - daysBefore (day / 31) + 1 ≤ 31) := by
  obtain ⟨v0, v1, v2, v3, v4, v5, v6, v7, v8, v9, v10, v11, v12⟩ := daysBefore_vals
  obtain ⟨m, hm⟩ : ∃ m, day / 31 = m := ⟨_, rfl⟩
  have hm0 : 0 ≤ m := by omega
  have hm11 : m ≤ 11 := by omega
  rw [hm]
  interval_cases m <;> norm_num [v0, v1, v2, v3, v4, v5, v6, v7, v8, v9, v10, v11, v12] <;>
    omega

theorem monthDay_fields (year yday : Int) (h0 : 0 ≤ yday)
    (h1 : yday < if isLeap year then 366 else 365) :
    (monthDay year yday).year = year ∧ 1 ≤ (monthDay year yday).month ∧
    (monthDay year yday).month ≤ 12 ∧
    civilToDays (monthDay year yday).year (monthDay year yday).month (monthDay year yday).day
      = daysSinceEpoch year + yday ∧
    1 ≤ (monthDay year yday).day ∧ (monthDay year yday).day ≤ 31 := by
  obtain ⟨v0, v1, v2, v3, v4, v5, v6, v7, v8, v9, v10, v11, v12⟩ := daysBefore_vals
  unfold monthDay civilToDays
  cases hL : isLeap year
  · simp only [hL, Bool.false_eq_true, if_false] at h1
    simp only [Bool.false_and, Bool.false_eq_true, if_false]
    obtain ⟨hA, hB⟩ := monthEstimate yday h0 (by omega)
    split
    · rename_i hge
      obtain ⟨a1, a2, a3, a5⟩ := hA hge
      simp only [hL, a3, Bool.false_and, Bool.false_eq_true, if_false]
      refine ⟨trivial, by omega, a1, by omega, by omega, a5⟩
    · rename_i hge
      obtain ⟨a2, a3, a5, a6⟩ := hB hge
      simp only [hL, a3, Bool.false_and, Bool.false_eq_true, if_false]
      refine ⟨trivial, by omega, by omega, by omega, a5, a6⟩
  · simp only [hL, if_true] at h1
    simp only [Bool.true_and, beq_iff_eq, decide_eq_true_eq]
    by_cases h59 : yday = 31 + 29 - 1
    · simp only [h59, if_true, hL, Bool.true_and, decide_eq_true_eq]
      norm_num [v1]
      omega
    · simp only [h59, if_false]
      by_cases hgt : yday > 31 + 29 - 1
      · simp only [hgt, if_true]
        obtain ⟨hA, hB⟩ := monthEstimate (yday - 1) (by omega) (by omega)
        split
        · rename_i hge
          obtain ⟨a1, a2, a3, a5⟩ := hA hge
          have a4 : (yday - 1) / 31 + 1 + 1 ≥ 3 := by omega
          simp only [hL, a3, a4, Bool.true_and, decide_True, if_true]
          refine ⟨trivial, by omega, a1, by omega, by omega, a5⟩
        · rename_i hge
          obtain ⟨a2, a3, a5, a6⟩ := hB hge
          have a4 : (yday - 1) / 31 + 1 ≥ 3 := by omega
          simp only [hL, a3, a4, Bool.true_and, decide_True, if_true]
          refine ⟨trivial, by omega, by omega, by omega, a5, a6⟩
      · simp only [hgt, if_false]
        obtain ⟨hA, hB⟩ := monthEstimate yday (by omega) (by omega)
        split
        · rename_i hge
          obtain ⟨a1, a2, a3, a5⟩ := hA hge
          have a4 : ¬ (yday / 31 + 1 + 1 ≥ 3) := by omega
          simp only [hL, a3, a4, Bool.true_and, decide_False, Bool.false_eq_true, if_false]
          refine ⟨trivial, by omega, a1, by omega, by omega, a5⟩
        · rename_i hge
          obtain ⟨a2, a3, a5, a6⟩ := hB hge
          have a4 : ¬ (yday / 31 + 1 ≥ 3) := by omega
          simp only [hL, a3, a4, Bool.true_and, decide_False, Bool.false_eq_true, if_false]
          refine ⟨trivial, by omega, by omega, by omega, a5, a6⟩

theorem unixToInternal_val : unixToInternal = 62135596800 := by decide

theorem absoluteToInternal_val : absoluteToInternal = -9223371966579724800 := by decide

theorem absYear_cases (d : Int) (hd0 : 0 ≤ d) : ∃ a b c e r : Int,
    0 ≤ a ∧ 0 ≤ b ∧ b ≤ 3 ∧ 0 ≤ c ∧ c ≤ 24 ∧ 0 ≤ e ∧ e ≤ 3 ∧ 0 ≤ r ∧
    (r ≤ 364 ∨ (r = 365 ∧ e = 3 ∧ (c ≤ 23 ∨ b = 3))) ∧
    d = 146097 * a + 36524 * b + 1461 * c + 365 * e + r ∧
    absYear d = ⟨400 * a + 100 * b + 4 * c + e + absoluteZeroYear, r⟩ := by
  obtain ⟨a, ha⟩ : ∃ a, a = d / 146097 := ⟨_, rfl⟩
  obtain ⟨g, hg⟩ : ∃ g, g = (d - 146097 * a) / 36524 := ⟨_, rfl⟩
  obtain ⟨c, hc⟩ : ∃ c, c = (d - 146097 * a - 36524 * (g - g / 4)) / 1461 := ⟨_, rfl⟩
  obtain ⟨k, hk⟩ : ∃ k, k = (d - 146097 * a - 36524 * (g - g / 4) - 1461 * c) / 365 := ⟨_, rfl⟩
  have hg4 : 0 ≤ g ∧ g ≤ 4 := by omega
  have hgc : g = 0 ∨ g = 1 ∨ g = 2 ∨ g = 3 ∨ g = 4 := by omega
  have hk4 : 0 ≤ k ∧ k ≤ 4 := by
    rcases hgc with h | h | h | h | h <;> subst h <;> omega
  have hkc : k = 0 ∨ k = 1 ∨ k = 2 ∨ k = 3 ∨ k = 4 := by omega
  refine ⟨a, g - g / 4, c, k - k / 4,
    d - 146097 * a - 36524 * (g - g / 4) - 1461 * c - 365 * (k - k / 4),
    ?_, ?_, ?_, ?_, ?_, ?_, ?_, ?_, ?_, ?_, ?_⟩
  · omega
  · omega
  · omega
  · rcases hgc with h | h | h | h | h <;> subst h <;> omega
  · rcases hgc with h | h | h | h | h <;> subst h <;> omega
  · omega
  · omega
  · rcases hkc with h | h | h | h | h <;> subst h <;> omega
  · rcases hgc with h | h | h | h | h <;> subst h <;>
      rcases hkc with h | h | h | h | h <;> subst h <;> omega
  · omega
  · simp only [absYear]
    subst ha hg hc hk
    rfl

theorem daysSinceEpoch_cases (a b c e : Int) (ha : 0 ≤ a ∧ a < 2 ^ 46) (hb : 0 ≤ b ∧ b ≤ 3)
    (hc : 0 ≤ c ∧ c ≤ 24) (he : 0 ≤ e ∧ e ≤ 3) :
    daysSinceEpoch (400 * a + 100 * b + 4 * c + e + absoluteZeroYear)
      = 146097 * a + 36524 * b + 1461 * c + 365 * e := by
  have hy : wrapUint64 (wrapInt64 (400 * a + 100 * b + 4 * c + e + absoluteZeroYear)
      - absoluteZeroYear) = 400 * a + 100 * b + 4 * c + e := by
    simp only [wrapUint64, wrapInt64, absoluteZeroYear]
    norm_num at ha ⊢
    omega
  simp only [daysSinceEpoch, hy]
  have h1 : (400 * a + 100 * b + 4 * c + e) / 400 = a := by omega
  rw [h1]
  have h2 : (400 * a + 100 * b + 4 * c + e - 400 * a) / 100 = b := by omega
  rw [h2]
  have h3 : (400 * a + 100 * b + 4 * c + e - 400 * a - 100 * b) / 4 = c := by omega
  rw [h3]
  simp only [wrapUint64]
  norm_num at ha ⊢
  omega

theorem isLeap_cases (a b c e : Int) (hb : 0 ≤ b ∧ b ≤ 3) (hc : 0 ≤ c ∧ c ≤ 24)
    (he : 0 ≤ e ∧ e ≤ 3) :
    isLeap (400 * a + 100 * b + 4 * c + e + absoluteZeroYear) = true ↔
      (e = 3 ∧ (c ≤ 23 ∨ b = 3)) := by
  have h4 : (400 * a + 100 * b + 4 * c + e + absoluteZeroYear) % 4 = 0 ↔ e = 3 := by
    simp only [absoluteZeroYear]; omega
  have h100 : (400 * a + 100 * b + 4 * c + e + absoluteZeroYear) % 100 = 0 ↔
      (e = 3 ∧ c = 24) := by
    simp only [absoluteZeroYear]; omega
  have h400 : (400 * a + 100 * b + 4 * c + e + absoluteZeroYear) % 400 = 0 ↔
      (e = 3 ∧ c = 24 ∧ b = 3) := by
    simp only [absoluteZeroYear]; omega
  simp only [isLeap, Bool.and_eq_true, Bool.or_eq_true, decide_eq_true_eq, bne_iff_ne, ne_eq,
    h4, h100, h400]
  omega

theorem norm_month (year month : Int) (h1 : 1 ≤ month) (h12 : month ≤ 12) :
    norm year (month - 1) 12 = (year, month - 1) := by
  unfold norm
  have h : ¬ (month - 1 < 0) := by omega
  have hh : ¬ (month - 1 ≥ 12) := by omega
  simp only [h, hh, if_false]

/-- The uint64 and int64 steps of `Date` amount to one reduction of the exact
second count to int64. -/
theorem Date_eq_civilToDays (year month day : Int) (h1 : 1 ≤ month) (h12 : month ≤ 12) :
    Date year month day =
      ⟨wrapInt64 (civilToDays year month day * secondsPerDay + absoluteToInternal)
        - unixToInternal, 0, UTC⟩ := by
  have e : month - 1 + 1 = month := by omega
  simp only [Date, norm_month year month h1 h12, civilToDays, e, add_sub_cancel_right, unixTime]
  congr 1
  simp only [wrapUint64, wrapInt64, internalToUnix, unixToInternal_val, absoluteToInternal_val,
    secondsPerDay]
  split <;> omega

theorem absYear_yday_lt (d : Int) (hd0 : 0 ≤ d) (hd1 : d < 2 ^ 62) :
    0 ≤ (absYear d).yday ∧ (absYear d).yday < (if isLeap (absYear d).year then 366 else 365) ∧
    daysSinceEpoch (absYear d).year + (absYear d).yday = d := by
  obtain ⟨a, b, c, e, r, ha0, hb0, hb3, hc0, hc24, he0, he3, hr0, hr, hd, hY⟩ :=
    absYear_cases d hd0
  rw [hY]
  simp only
  have ha : a < 2 ^ 46 := by norm_num at hd1 ⊢; omega
  have hl := isLeap_cases a b c e ⟨hb0, hb3⟩ ⟨hc0, hc24⟩ ⟨he0, he3⟩
  have hs := daysSinceEpoch_cases a b c e ⟨ha0, ha⟩ ⟨hb0, hb3⟩ ⟨hc0, hc24⟩ ⟨he0, he3⟩
  refine ⟨hr0, ?_, by omega⟩
  by_cases hleap : isLeap (400 * a + 100 * b + 4 * c + e + absoluteZeroYear) = true
  · simp only [hleap, if_true]; omega
  · have : ¬ (e = 3 ∧ (c ≤ 23 ∨ b = 3)) := fun h => hleap (hl.mpr h)
    simp only [hleap, if_false]
    rcases hr with h | h
    · omega
    · exact absurd h.2 this

/-- Rebuilding a midnight from the civil date of a second count gives the start
of that day, reduced to int64. -/
theorem Date_absDate (abs : Int) (h0 : 0 ≤ abs) (h1 : abs < 2 ^ 64) :
    Date (absDate abs).year (absDate abs).month (absDate abs).day
      = ⟨wrapInt64 (abs / secondsPerDay * secondsPerDay + absoluteToInternal)
          - unixToInternal, 0, UTC⟩ := by
  have hd0 : 0 ≤ abs / secondsPerDay := by simp only [secondsPerDay]; omega
  have hd1 : abs / secondsPerDay < 2 ^ 62 := by
    simp only [secondsPerDay]; norm_num at h1 ⊢; omega
  obtain ⟨g0, g1, g2⟩ := absYear_yday_lt (abs / secondsPerDay) hd0 hd1
  obtain ⟨f1, f2, f3, f4, _, _⟩ := monthDay_fields _ _ g0 g1
  unfold absDate
  simp only
  rw [Date_eq_civilToDays _ _ _ f2 f3, f4, g2]

/-- The month and the day `absDate` returns are a month and a day. -/
theorem absDate_ranges (abs : Int) (h0 : 0 ≤ abs) (h1 : abs < 2 ^ 64) :
    1 ≤ (absDate abs).month ∧ (absDate abs).month ≤ 12 ∧
    1 ≤ (absDate abs).day ∧ (absDate abs).day ≤ 31 := by
  have hd0 : 0 ≤ abs / secondsPerDay := by simp only [secondsPerDay]; omega
  have hd1 : abs / secondsPerDay < 2 ^ 62 := by
    simp only [secondsPerDay]; norm_num at h1 ⊢; omega
  obtain ⟨g0, g1, _⟩ := absYear_yday_lt (abs / secondsPerDay) hd0 hd1
  obtain ⟨_, f2, f3, _, f5, f6⟩ := monthDay_fields _ _ g0 g1
  exact ⟨f2, f3, f5, f6⟩

theorem abs_bounds (t : Time) : 0 ≤ t.abs ∧ t.abs < 2 ^ 64 := by
  simp only [Time.abs, wrapUint64]
  omega

theorem unixSec_of_inRange (t : Time) (h : t.inRange) : t.unixSec = t.sec := by
  obtain ⟨h1, h2, _, _⟩ := h
  simp only [Time.unixSec, Time.ext, internalToUnix, wrapInt64, unixToInternal_val] at h2 ⊢
  norm_num at h1 h2 ⊢
  omega

/-- In range, `Time.abs` is the wall-clock reading moved to `absoluteZeroYear`. -/
theorem abs_of_inRange (t : Time) (h : t.inRange) : t.abs = t.wall + internalToAbsolute := by
  have hu := unixSec_of_inRange t h
  obtain ⟨h1, h2, h3, h4⟩ := h
  simp only [Time.abs, hu]
  simp only [Time.wall, Time.ext, internalToAbsolute, wrapInt64, wrapUint64, unixToInternal_val,
    absoluteToInternal_val] at h2 h3 h4 ⊢
  norm_num at h1 h2 h3 h4 ⊢
  omega

/-- In range, the midnight `calculateDaysDifference` builds is the start of the
calendar day the timestamp shows, as a UTC instant. -/
theorem midnight_of (t : Time) (h : t.inRange) :
    Date t.Year t.Month t.Day = ⟨wallDay t * secondsPerDay - unixToInternal, 0, UTC⟩ := by
  obtain ⟨b0, b1⟩ := abs_bounds t
  simp only [Time.Year, Time.Month, Time.Day]
  rw [Date_absDate t.abs b0 b1, abs_of_inRange t h]
  obtain ⟨h1, h2, h3, h4⟩ := h
  congr 1
  simp only [wallDay, internalToAbsolute, wrapInt64, secondsPerDay, absoluteToInternal_val] at h3 ⊢
  norm_num at h3 h4 ⊢
  omega

/-! ## Durations -/

theorem addSec_cases (ext d : Int) (he : -(2 ^ 63) ≤ ext ∧ ext ≤ 2 ^ 63 - 1)
    (hd : -(2 ^ 63) ≤ d ∧ d ≤ 2 ^ 63 - 1) :
    (-(2 ^ 63) ≤ ext + d ∧ ext + d ≤ 2 ^ 63 - 1 ∧ addSec ext d = ext + d) ∨
    (2 ^ 63 - 1 < ext + d ∧ addSec ext d = 2 ^ 63 - 1) ∨
    (ext + d < -(2 ^ 63) ∧ addSec ext d = -(2 ^ 63 - 1)) := by
  unfold addSec
  simp only [wrapInt64]
  norm_num at he hd ⊢
  by_cases hp : (ext + d + 9223372036854775808) % 18446744073709551616 - 9223372036854775808 > ext
  · by_cases hq : d > 0
    · rw [if_pos ⟨fun _ => hq, fun _ => hp⟩]; omega
    · rw [if_neg (fun h => hq (h.mp hp)), if_neg hq]; omega
  · by_cases hq : d > 0
    · rw [if_neg (fun h => hp (h.mpr hq)), if_pos hq]; omega
    · rw [if_pos ⟨fun h => absurd h hp, fun h => absurd h hq⟩]; omega

theorem tdiv_tmod_facts (d : Int) : ∃ q r : Int, Int.tdiv d 1000000000 = q ∧
    Int.tmod d 1000000000 = r ∧ d = 1000000000 * q + r ∧ -1000000000 < r ∧ r < 1000000000 := by
  have hneg : Int.tmod (-d) 1000000000 = -(Int.tmod d 1000000000) := by
    rw [Int.tmod_def, Int.tmod_def, Int.neg_tdiv]; ring
  refine ⟨_, _, rfl, rfl, (Int.tdiv_add_tmod d 1000000000).symm, ?_, ?_⟩
  · have := Int.tmod_lt_of_pos (-d) (show (0 : Int) < 1000000000 by decide)
    rw [hneg] at this
    omega
  · exact Int.tmod_lt_of_pos d (by decide)

theorem Equal_iff (t u : Time) : t.Equal u = true ↔ t.ext = u.ext ∧ t.nsec = u.nsec := by
  simp [Time.Equal]

theorem Before_iff (t u : Time) :
    t.Before u = true ↔ t.ext < u.ext ∨ (t.ext = u.ext ∧ t.nsec < u.nsec) := by
  simp [Time.Before]

/-- Adding an int64 duration to a midnight gives another given midnight exactly
when the duration is their exact difference. -/
theorem Add_midnight_equal (A B d : Int) (locA locB : Location)
    (hA : absoluteToInternal ≤ A ∧ A ≤ 2 ^ 63 - 1) (hAm : A % 86400 = 0)
    (hB : -(2 ^ 63) ≤ B ∧ B ≤ 2 ^ 63 - 1) (hd : -(2 ^ 63) ≤ d ∧ d ≤ 2 ^ 63 - 1) :
    (Time.Add ⟨B - unixToInternal, 0, locB⟩ d).Equal ⟨A - unixToInternal, 0, locA⟩ = true ↔
      d = (A - B) * 1000000000 := by
  obtain ⟨q, r, hq, hr, hqr, hr1, hr2⟩ := tdiv_tmod_facts d
  rw [absoluteToInternal_val] at hA
  norm_num at hA hB hd
  have hc := addSec_cases B q (by norm_num; omega) (by norm_num; omega)
  have hc2 := addSec_cases B (q - 1) (by norm_num; omega) (by norm_num; omega)
  norm_num at hc hc2
  rw [Equal_iff]
  unfold Time.Add
  simp only [hq, hr, zero_add, Time.ext, sub_add_cancel]
  have n1 : ¬ (r ≥ 1000000000) := by omega
  rw [if_neg n1]
  by_cases n2 : r < 0
  · rw [if_pos n2]
    simp only [sub_add_cancel]
    constructor
    · intro h; omega
    · intro h; omega
  · rw [if_neg n2]
    simp only [sub_add_cancel]
    constructor
    · intro ⟨h1, h2⟩
      rcases hc with ⟨_, _, e⟩ | ⟨_, e⟩ | ⟨_, e⟩ <;> rw [e] at h1 <;> omega
    · intro h
      have hr0 : r = 0 := by omega
      have hqv : q = A - B := by omega
      refine ⟨?_, hr0⟩
      rcases hc with ⟨_, _, e⟩ | ⟨h3, _⟩ | ⟨h3, _⟩ <;> omega

/-- The difference of two midnights, both in the int64 range of `ext`: the exact
difference in nanoseconds when it fits a duration, else the nearest end of the
range. -/
theorem Sub_midnights (a b : Int)
    (ha : absoluteToInternal ≤ a * secondsPerDay ∧ a * secondsPerDay ≤ 2 ^ 63 - 1)
    (hb : absoluteToInternal ≤ b * secondsPerDay ∧ b * secondsPerDay ≤ 2 ^ 63 - 1) :
    Time.Sub ⟨a * secondsPerDay - unixToInternal, 0, UTC⟩
        ⟨b * secondsPerDay - unixToInternal, 0, UTC⟩
      = clampDuration ((a - b) * (24 * Hour)) := by
  have hH : (24 * Hour : Int) = 86400000000000 := by decide
  have hmin : minDuration = -9223372036854775808 := by decide
  have hmax : maxDuration = 9223372036854775807 := by decide
  simp only [secondsPerDay] at ha hb ⊢
  have hAm : a * 86400 % 86400 = 0 := by omega
  have hb64 : -(2 ^ 63) ≤ b * 86400 ∧ b * 86400 ≤ 2 ^ 63 - 1 := by
    rw [absoluteToInternal_val] at hb
    norm_num at hb ⊢
    omega
  obtain ⟨d, hd⟩ : ∃ d, d = wrapInt64 (wrapInt64 (wrapInt64
      (a * 86400 - b * 86400) * 1000000000) + ((0 : Int) - 0)) := ⟨_, rfl⟩
  have hd64 : -(2 ^ 63) ≤ d ∧ d ≤ 2 ^ 63 - 1 := by
    rw [hd]; simp only [wrapInt64]; norm_num; omega
  have hdm : ∃ m : Int, d = (a - b) * 86400000000000 - m * 18446744073709551616 := by
    rw [hd]
    simp only [wrapInt64]
    norm_num
    exact ⟨((a - b) * 86400000000000 + 9223372036854775808) / 18446744073709551616, by omega⟩
  obtain ⟨m, hm⟩ := hdm
  have key := Add_midnight_equal (a * 86400) (b * 86400) d UTC UTC ha hAm hb64 hd64
  have hbef : Time.Before ⟨a * 86400 - unixToInternal, 0, UTC⟩
      ⟨b * 86400 - unixToInternal, 0, UTC⟩ = true ↔ a < b := by
    rw [Before_iff]
    simp only [Time.ext, sub_add_cancel]
    omega
  simp only [Time.Sub, Time.ext, sub_add_cancel]
  rw [← hd]
  unfold clampDuration
  rw [hH, hmin, hmax]
  rw [absoluteToInternal_val] at ha hb
  norm_num at hd64 ha hb
  by_cases k1 : (a - b) * 86400000000000 < -9223372036854775808
  · have e1 : ¬ (d = (a * 86400 - b * 86400) * 1000000000) := by omega
    rw [if_neg (fun h => e1 (key.mp h)), if_pos (hbef.mpr (by omega)), if_pos k1]
  · by_cases k2 : 9223372036854775807 < (a - b) * 86400000000000
    · have e1 : ¬ (d = (a * 86400 - b * 86400) * 1000000000) := by omega
      have e2 : ¬ (a < b) := by omega
      rw [if_neg (fun h => e1 (key.mp h)), if_neg (fun h => e2 (hbef.mp h)), if_neg k1, if_pos k2]
    · have e1 : d = (a * 86400 - b * 86400) * 1000000000 := by omega
      rw [if_pos (key.mpr e1), if_neg k1, if_neg k2]
      omega

theorem wallDay_bounds (t : Time) (h : t.inRange) :
    absoluteToInternal ≤ wallDay t * secondsPerDay ∧ wallDay t * secondsPerDay ≤ 2 ^ 63 - 1 := by
  obtain ⟨_, _, h3, h4⟩ := h
  simp only [wallDay, secondsPerDay, absoluteToInternal_val] at h3 ⊢
  norm_num at h4 ⊢
  omega

theorem midnightDiff_eq (t1 t2 : Time) (h1 : t1.inRange) (h2 : t2.inRange) :
    midnightDiff t1 t2 = clampDuration ((wallDay t2 - wallDay t1) * (24 * Hour)) := by
  simp only [midnightDiff, midnight_of t1 h1, midnight_of t2 h2]
  exact Sub_midnights _ _ (wallDay_bounds t2 h2) (wallDay_bounds t1 h1)

theorem calculateDaysDifference_eq (t1 t2 : Time) :
    calculateDaysDifference t1 t2 = truncToInt (Duration.Hours (midnightDiff t1 t2) / 24) := rfl

theorem hours_of_days (k : Int) : Duration.Hours (k * (24 * Hour)) / 24 = (k : ℚ) := by
  have h1 : Int.tdiv (k * (24 * Hour)) Hour = k * 24 := by
    rw [← mul_assoc]; exact Int.mul_tdiv_cancel _ (by decide)
  have h2 : Int.tmod (k * (24 * Hour)) Hour = 0 := by
    rw [← mul_assoc]; exact Int.mul_tmod_left _ _
  simp only [Duration.Hours, h1, h2]
  push_cast
  ring

theorem truncToInt_intCast (k : Int) : truncToInt (k : ℚ) = k := by
  simp [truncToInt]

theorem truncToInt_of_nonneg (x : ℚ) (n : Int) (h0 : 0 ≤ n) (h1 : (n : ℚ) ≤ x) (h2 : x < n + 1) :
    truncToInt x = n := by
  have hx : 0 ≤ x := le_trans (by exact_mod_cast h0) h1
  have hnum : 0 ≤ x.num := Rat.num_nonneg.mpr hx
  unfold truncToInt
  rw [Int.tdiv_eq_ediv hnum (by exact_mod_cast Nat.zero_le _)]
  rw [← Rat.floor_def, Int.floor_eq_iff]
  exact ⟨h1, h2⟩

theorem truncToInt_neg (x : ℚ) : truncToInt (-x) = - truncToInt x := by
  simp [truncToInt, Int.neg_tdiv]

theorem hours_maxDuration : truncToInt (Duration.Hours maxDuration / 24) = 106751 := by
  have h1 : Int.tdiv maxDuration Hour = 2562047 := by decide
  have h2 : Int.tmod maxDuration Hour = 2836854775807 := by decide
  apply truncToInt_of_nonneg _ _ (by decide)
  · simp only [Duration.Hours, h1, h2]; norm_num
  · simp only [Duration.Hours, h1, h2]; norm_num

theorem hours_minDuration : truncToInt (Duration.Hours minDuration / 24) = -106751 := by
  have h1 : Int.tdiv minDuration Hour = -2562047 := by decide
  have h2 : Int.tmod minDuration Hour = -2836854775808 := by decide
  have e : Duration.Hours minDuration / 24
      = -((2562047 + 2836854775808 / (60 * 60 * 1000000000)) / 24) := by
    simp only [Duration.Hours, h1, h2]; norm_num
  rw [e, truncToInt_neg]
  congr 1
  apply truncToInt_of_nonneg _ _ (by decide) <;> norm_num

/-- Closed form of `calculateDaysDifference` on timestamps in range: the
difference of the day numbers the two timestamps show, held between -106751 and
106751. -/
theorem calculateDaysDifference_closed (t1 t2 : Time) (h1 : t1.inRange) (h2 : t2.inRange) :
    calculateDaysDifference t1 t2 = max (-106751) (min 106751 (wallDay t2 - wallDay t1)) := by
  rw [calculateDaysDifference_eq, midnightDiff_eq t1 t2 h1 h2]
  generalize wallDay t2 - wallDay t1 = k
  unfold clampDuration
  have hH : (24 * Hour : Int) = 86400000000000 := by decide
  have hmin : minDuration = -9223372036854775808 := by decide
  have hmax : maxDuration = 9223372036854775807 := by decide
  by_cases k1 : k * (24 * Hour) < minDuration
  · rw [if_pos k1, hours_minDuration]
    rw [hH, hmin] at k1
    omega
  · rw [if_neg k1]
    by_cases k2 : maxDuration < k * (24 * Hour)
    · rw [if_pos k2, hours_maxDuration]
      rw [hH, hmax] at k2
      omega
    · rw [if_neg k2, hours_of_days, truncToInt_intCast]
      rw [hH, hmin] at k1
      rw [hH, hmax] at k2
      omega

/-! ## Paths -/

theorem splitSep_ne_nil (l : List Char) : splitSep l ≠ [] := by
  cases l with
  | nil => simp [splitSep]
  | cons c cs =>
    unfold splitSep
    split
    · simp
    · split <;> simp

theorem splitSep_cons_sep (c : Char) (cs : List Char) (h : isPathSeparator c = true) :
    splitSep (c :: cs) = [] :: splitSep cs := by
  simp [splitSep, h]

theorem splitSep_cons_other (c : Char) (cs : List Char) (h : isPathSeparator c = false) :
    ∃ e es, splitSep cs = e :: es ∧ splitSep (c :: cs) = (c :: e) :: es := by
  cases hs : splitSep cs with
  | nil => exact absurd hs (splitSep_ne_nil cs)
  | cons e es => exact ⟨e, es, rfl, by simp [splitSep, h, hs]⟩

theorem splitSep_append_sep (a b : List Char) :
    splitSep (a ++ '/' :: b) = splitSep a ++ splitSep b := by
  induction a with
  | nil => simp [splitSep, isPathSeparator]
  | cons c cs ih =>
    rw [List.cons_append]
    cases hc : isPathSeparator c with
    | true => rw [splitSep_cons_sep _ _ hc, splitSep_cons_sep _ _ hc, ih]; rfl
    | false =>
      obtain ⟨e, es, h1, h2⟩ := splitSep_cons_other c cs hc
      obtain ⟨e2, es2, h3, h4⟩ := splitSep_cons_other c (cs ++ '/' :: b) hc
      rw [h2, h4]
      rw [ih, h1] at h3
      simp only [List.cons_append, List.cons.injEq] at h3
      rw [← h3.1, ← h3.2]
      rfl

theorem splitSep_of_no_sep (b : List Char) (h : '/' ∉ b) : splitSep b = [b] := by
  induction b with
  | nil => rfl
  | cons c cs ih =>
    have hc : isPathSeparator c = false := by
      simp only [isPathSeparator, beq_eq_false_iff_ne, ne_eq]
      intro e; exact h (by simp [e])
    have hcs : '/' ∉ cs := fun e => h (List.mem_cons_of_mem _ e)
    simp [splitSep, hc, ih hcs]

theorem joinSep_append_singleton (es : List (List Char)) (e : List Char) (h : es ≠ []) :
    joinSep (es ++ [e]) = joinSep es ++ '/' :: e := by
  induction es with
  | nil => exact absurd rfl h
  | cons x xs ih =>
    cases xs with
    | nil => simp [joinSep]
    | cons y ys =>
      have := ih (by simp)
      simp only [List.cons_append] at this ⊢
      simp only [joinSep, this, List.append_assoc, List.cons_append]

theorem cleanStep_entry (rooted : Bool) (st : List (List Char) × Nat) (name : String)
    (h : IsEntryName name) : cleanStep rooted st name.data = (st.1 ++ [name.data], st.2) := by
  obtain ⟨h1, _, h3, h4⟩ := h
  simp [cleanStep, h1, h3, h4]

/-- Cleaning directory, separator, entry name: the directory is cleaned on its
own and the name is added as one more element. -/
theorem cleanChars_dir_entry (c : Char) (dir : List Char) (name : String)
    (h : IsEntryName name) :
    cleanChars (c :: dir ++ '/' :: name.data) =
      (let rooted := isPathSeparator c
       let out := (splitSep (c :: dir)).foldl (cleanStep rooted) ([], 0)
       if rooted then '/' :: joinSep (out.1 ++ [name.data])
       else joinSep (out.1 ++ [name.data])) := by
  have hs : splitSep (c :: dir ++ '/' :: name.data)
      = splitSep (c :: dir) ++ [name.data] := by
    rw [splitSep_append_sep, splitSep_of_no_sep _ h.2.1]
  simp only [cleanChars, List.cons_append]
  rw [← List.cons_append, hs, List.foldl_append, List.foldl_cons, List.foldl_nil,
    cleanStep_entry _ _ _ h]
  simp

theorem inputDir_clean :
    (splitSep inputDir.data).foldl (cleanStep true) ([], 0) =
      (["Users".data, "hankangkang".data, "Downloads".data, "photos".data], 0) := by
  decide

theorem outputDir_clean :
    (splitSep outputDir.data).foldl (cleanStep false) ([], 0) = (["output_images".data], 0) := by
  decide

/-- The call `filepath.Join(inputDir, name)` for an entry name. -/
theorem Join_inputDir (name : String) (h : IsEntryName name) :
    Join inputDir name = entryPath name := by
  have hne : inputDir ≠ "" := by decide
  have hd : inputDir.data = '/' :: "Users/hankangkang/Downloads/photos".data := by
    decide
  have hc := cleanChars_dir_entry '/' "Users/hankangkang/Downloads/photos".data name h
  rw [← hd] at hc
  simp only [Join, hne, ne_eq, not_false_eq_true, if_true, Clean, entryPath]
  rw [hc]
  have hsep : isPathSeparator '/' = true := by decide
  simp only [hsep, if_true, inputDir_clean]
  rw [joinSep_append_singleton _ _ (by simp)]
  congr 1

/-- The call `filepath.Join(outputDir, name)` for an entry name. -/
theorem Join_outputDir (name : String) (h : IsEntryName name) :
    Join outputDir name = ⟨"output_images".data ++ '/' :: name.data⟩ := by
  have hne : outputDir ≠ "" := by decide
  have hd : outputDir.data = '.' :: "/output_images".data := by decide
  have hc := cleanChars_dir_entry '.' "/output_images".data name h
  rw [← hd] at hc
  simp only [Join, hne, ne_eq, not_false_eq_true, if_true, Clean]
  rw [hc]
  have hsep : isPathSeparator '.' = false := by decide
  simp only [hsep, outputDir_clean]
  rw [joinSep_append_singleton _ _ (by simp)]
  rfl

theorem nameExt_of_no_dot (l : List Char) (h : '.' ∉ l) : nameExt l = [] := by
  cases l with
  | nil => rfl
  | cons c cs =>
    have h1 : '.' ∉ cs := fun e => h (List.mem_cons_of_mem _ e)
    have h2 : c ≠ '.' := fun e => h (by simp [e])
    simp [nameExt, h1, h2]

theorem isPathSeparator_of_not_mem (c : Char) (l : List Char) (h : '/' ∉ c :: l) :
    isPathSeparator c = false := by
  simp only [isPathSeparator, beq_eq_false_iff_ne, ne_eq]
  intro e; exact h (by simp [e])

/-- The backward scan of `filepath.Ext` over a name that holds no separator finds
the extension of the name, or else goes on with what lies before the name. -/
theorem extScan_name (l rest acc : List Char) (h : '/' ∉ l) :
    extScan (l.reverse ++ rest) acc =
      if '.' ∈ l then nameExt l ++ acc else extScan rest (l ++ acc) := by
  induction l generalizing rest acc with
  | nil => simp
  | cons c cs ih =>
    have hcs : '/' ∉ cs := fun e => h (List.mem_cons_of_mem _ e)
    have hc := isPathSeparator_of_not_mem c cs h
    rw [List.reverse_cons, List.append_assoc, List.singleton_append, ih _ _ hcs]
    by_cases hd : '.' ∈ cs
    · simp [hd, nameExt]
    · by_cases he : c = '.'
      · simp [hd, he, nameExt, extScan, isPathSeparator]
      · have he2 : ¬ '.' = c := fun e => he e.symm
        simp [hd, he, he2, nameExt, extScan, hc]

/-- The call `filepath.Ext` on the path of an entry gives the extension of the
entry name: the scan stops at the separator in front of the name. -/
theorem Ext_entryPath (name : String) (h : IsEntryName name) :
    Ext (entryPath name) = ⟨nameExt name.data⟩ := by
  simp only [Ext, entryPath, List.reverse_append, List.reverse_cons, List.append_assoc,
    List.singleton_append]
  rw [extScan_name _ _ _ h.2.1]
  by_cases hd : '.' ∈ name.data
  · simp [hd]
  · simp [hd, nameExt_of_no_dot _ hd, extScan, isPathSeparator]

theorem takeElem_name (l rest : List Char) (h : '/' ∉ l) :
    takeElem (l ++ '/' :: rest) = l := by
  induction l with
  | nil => simp [takeElem, isPathSeparator]
  | cons c cs ih =>
    have hcs : '/' ∉ cs := fun e => h (List.mem_cons_of_mem _ e)
    simp [takeElem, isPathSeparator_of_not_mem c cs h, ih hcs]

/-- The call `filepath.Base` on directory, separator, entry name gives the name. -/
theorem Base_dir_entry (dir : List Char) (name : String) (h : IsEntryName name) :
    Base ⟨dir ++ '/' :: name.data⟩ = name := by
  have hrev : '/' ∉ name.data.reverse := by simpa using h.2.1
  have hne : (⟨dir ++ '/' :: name.data⟩ : String) ≠ "" := by
    intro e
    have := congrArg String.data e
    simp at this
  have hnil : ¬ (name.data = []) := h.1
  simp only [Base, hne, if_false, List.reverse_append, List.reverse_cons, List.append_assoc,
    List.singleton_append]
  have hd : dropSeps (name.data.reverse ++ '/' :: dir.reverse)
      = name.data.reverse ++ '/' :: dir.reverse := by
    cases hr : name.data.reverse with
    | nil => exact absurd (List.reverse_eq_nil_iff.mp hr) hnil
    | cons c cs =>
      rw [hr] at hrev
      simp [dropSeps, isPathSeparator_of_not_mem c cs hrev]
  rw [hd, takeElem_name _ _ hrev]
  simp [hnil]

/-! ## The loop of `main` -/

theorem mainStep_selects (Local : Location) (env : String → FileEnv) (run : Run) (e : DirEntry)
    (hr : run.died = false) :
    (mainStep Local (returning env) run e).calls
        = run.calls ++ (if selects e then [callFor Local env e] else []) ∧
    (mainStep Local (returning env) run e).processedCount
        = run.processedCount + (if selects e then 1 else 0) ∧
    (mainStep Local (returning env) run e).died = false := by
  unfold mainStep selects callFor returning
  simp only [hr, Bool.false_eq_true, if_false]
  cases hd : e.IsDir
  · cases hs : supportedExt (ToLower (Ext (Join inputDir e.Name))) <;> simp [hs, hr]
  · simp [hr]

theorem foldl_mainStep (Local : Location) (env : String → FileEnv) (files : List DirEntry)
    (run : Run) (hr : run.died = false) :
    (files.foldl (mainStep Local (returning env)) run).calls
        = run.calls ++ (files.filter selects).map (callFor Local env) ∧
    (files.foldl (mainStep Local (returning env)) run).processedCount
        = run.processedCount + (files.filter selects).length ∧
    (files.foldl (mainStep Local (returning env)) run).died = false := by
  induction files generalizing run with
  | nil => simp [hr]
  | cons e es ih =>
    obtain ⟨h1, h2, h3⟩ := mainStep_selects Local env run e hr
    obtain ⟨i1, i2, i3⟩ := ih (mainStep Local (returning env) run e) h3
    rw [List.foldl_cons, i1, i2, h1, h2]
    refine ⟨?_, ?_, i3⟩
    · cases hs : selects e <;> simp [List.filter_cons, hs]
    · cases hs : selects e <;> simp [List.filter_cons, hs]
      omega

theorem main_calls (Local : Location) (env : String → FileEnv) (files : List DirEntry) :
    (main Local (returning env) files).calls = (files.filter selects).map (callFor Local env) ∧
    (main Local (returning env) files).processedCount = (files.filter selects).length ∧
    (main Local (returning env) files).died = false := by
  obtain ⟨h1, h2, h3⟩ := foldl_mainStep Local env files ⟨[], [], 0, false⟩ rfl
  unfold main
  simp only [h3, Bool.false_eq_true, if_false]
  split <;> simp [h1, h2, h3]

theorem mk_beq (l : List Char) (s : String) :
    ((⟨l⟩ : String) == s) = decide (l = s.data) := by
  by_cases h : l = s.data
  · subst h; simp
  · have hne : (⟨l⟩ : String) ≠ s := fun e => h (by rw [← e])
    simp [h, hne]

theorem supportedExt_mk (l : List Char) :
    supportedExt ⟨l⟩ = decide (l ∈ [".jpg".data, ".jpeg".data, ".png".data]) := by
  simp only [supportedExt, mk_beq, List.mem_cons, List.mem_singleton, List.not_mem_nil,
    or_false, Bool.decide_or]
  rw [Bool.or_assoc]

theorem selects_eq_qualifies (e : DirEntry) (h : IsEntryName e.Name) :
    selects e = qualifies e := by
  unfold selects qualifies
  rw [Join_inputDir _ h, Ext_entryPath _ h]
  simp only [ToLower, supportedExt_mk]

/-! ## Formatting -/

theorem digitLoop_lt_ten (fuel u : Nat) (acc : List Char) (h : u < 10) :
    digitLoop fuel u acc = digitChar u :: acc := by
  cases fuel with
  | zero => rfl
  | succ f =>
    have : ¬ (u ≥ 10) := by omega
    simp [digitLoop, this]

theorem digitLoop_ge_ten (fuel u : Nat) (acc : List Char) (h : 10 ≤ u) :
    digitLoop (fuel + 1) u acc = digitLoop fuel (u / 10) (digitChar (u % 10) :: acc) := by
  have e : u - u / 10 * 10 = u % 10 := by omega
  simp [digitLoop, h, e]

/-- With `u` turns allowed the digit loop writes the decimal digits of `u`. -/
theorem digitLoop_eq (fuel u : Nat) (acc : List Char) (h : u ≤ fuel) :
    digitLoop fuel u acc = decimalDigits u ++ acc := by
  induction fuel generalizing u acc with
  | zero =>
    have : u = 0 := by omega
    subst this
    rfl
  | succ f ih =>
    by_cases h10 : 10 ≤ u
    · rw [digitLoop_ge_ten f u acc h10, ih (u / 10) _ (by omega)]
      have hq : u / 10 ≠ 0 := by omega
      have hu : u ≠ 0 := by omega
      have hd : Nat.digits 10 u = (u % 10) :: Nat.digits 10 (u / 10) :=
        Nat.digits_def' (by decide) (by omega)
      simp [decimalDigits, hq, hu, hd]
    · have hlt : u < 10 := by omega
      rw [digitLoop_lt_ten _ u acc hlt]
      by_cases h0 : u = 0
      · subst h0; rfl
      · have hd : Nat.digits 10 u = [u] := Nat.digits_of_lt 10 u h0 hlt
        simp [decimalDigits, h0, hd]

theorem fmtInteger_eq (k : Int) : fmtInteger k = decimalRepr k := by
  unfold fmtInteger decimalRepr
  simp only [digitLoop_eq _ _ _ (le_refl _), List.append_nil]

theorem appendInt_two (b : List Char) (x : Int) (h0 : 0 ≤ x) (h1 : x < 100) :
    appendInt b x 2 = b ++ twoDigits x := by
  obtain ⟨u, rfl⟩ := Int.eq_ofNat_of_zero_le h0
  have hu : u < 100 := by omega
  have hneg : ¬ ((u : Int) < 0) := by omega
  simp only [appendInt, hneg, if_false, Int.natAbs_ofNat, twoDigits, Int.toNat_ofNat]
  by_cases h10 : 10 ≤ u
  · obtain ⟨f, rfl⟩ : ∃ f, u = f + 1 := ⟨u - 1, by omega⟩
    rw [digitLoop_ge_ten f _ _ h10, digitLoop_lt_ten _ _ _ (by omega)]
    simp
  · have hlt : u < 10 := by omega
    rw [digitLoop_lt_ten _ _ _ hlt]
    have e1 : u / 10 = 0 := by omega
    have e2 : u % 10 = u := by omega
    simp [e1, e2, digitChar]

theorem appendInt_four (b : List Char) (x : Int) (h0 : 0 ≤ x) (h1 : x < 10000) :
    appendInt b x 4 = b ++ fourDigits x := by
  obtain ⟨u, rfl⟩ := Int.eq_ofNat_of_zero_le h0
  have hu : u < 10000 := by omega
  have hneg : ¬ ((u : Int) < 0) := by omega
  simp only [appendInt, hneg, if_false, Int.natAbs_ofNat, fourDigits, Int.toNat_ofNat]
  by_cases h10 : u < 10
  · rw [digitLoop_lt_ten _ _ _ h10]
    have e1 : u / 1000 = 0 := by omega
    have e2 : u / 100 % 10 = 0 := by omega
    have e3 : u / 10 % 10 = 0 := by omega
    have e4 : u % 10 = u := by omega
    simp [e1, e2, e3, e4, digitChar, List.replicate]
  · obtain ⟨f, rfl⟩ : ∃ f, u = f + 1 := ⟨u - 1, by omega⟩
    rw [digitLoop_ge_ten f _ _ (by omega)]
    by_cases h100 : f + 1 < 100
    · rw [digitLoop_lt_ten _ _ _ (by omega)]
      have e1 : (f + 1) / 1000 = 0 := by omega
      have e2 : (f + 1) / 100 % 10 = 0 := by omega
      have e3 : (f + 1) / 10 % 10 = (f + 1) / 10 := by omega
      simp [e1, e2, e3, digitChar, List.replicate]
    · obtain ⟨g, rfl⟩ : ∃ g, f = g + 1 := ⟨f - 1, by omega⟩
      rw [digitLoop_ge_ten g _ _ (by omega)]
      by_cases h1000 : g + 1 + 1 < 1000
      · rw [digitLoop_lt_ten _ _ _ (by omega)]
        have e1 : (g + 1 + 1) / 1000 = 0 := by omega
        have e2 : (g + 1 + 1) / 100 % 10 = (g + 1 + 1) / 10 / 10 := by omega
        simp [e1, e2, digitChar, List.replicate]
      · obtain ⟨k, rfl⟩ : ∃ k, g = k + 1 := ⟨g - 1, by omega⟩
        rw [digitLoop_ge_ten k _ _ (by omega), digitLoop_lt_ten _ _ _ (by omega)]
        have e1 : (k + 1 + 1 + 1) / 1000 = (k + 1 + 1 + 1) / 10 / 10 / 10 := by omega
        have e2 : (k + 1 + 1 + 1) / 100 % 10 = (k + 1 + 1 + 1) / 10 / 10 % 10 := by omega
        simp [e1, e2]

theorem absClock_eq (t : Time) : absClock t.abs = (wallHour t, wallMinute t, wallSecond t) := by
  simp only [absClock, wallHour, wallMinute, wallSecond, secondsPerDay, Prod.mk.injEq]
  refine ⟨trivial, ?_, ?_⟩ <;> omega

theorem wallClock_ranges (t : Time) :
    (0 ≤ wallHour t ∧ wallHour t < 100) ∧ (0 ≤ wallMinute t ∧ wallMinute t < 100) ∧
    (0 ≤ wallSecond t ∧ wallSecond t < 100) := by
  simp only [wallHour, wallMinute, wallSecond, secondsPerDay]
  omega

/-- The formatted timestamp, for a year of at most four digits: each field
zero-padded, in the order year, month, day, hour, minute, second. -/
theorem Format_eq (t : Time) (h0 : 0 ≤ t.Year) (h1 : t.Year ≤ 9999) :
    t.Format = ⟨dateTimeChars t⟩ := by
  obtain ⟨m1, m12, d1, d31⟩ := absDate_ranges t.abs (abs_bounds t).1 (abs_bounds t).2
  obtain ⟨⟨a1, a2⟩, ⟨b1, b2⟩, ⟨c1, c2⟩⟩ := wallClock_ranges t
  simp only [Time.Year] at h0 h1
  simp only [Time.Format, absClock_eq, dateTimeChars, Time.Year, Time.Month, Time.Day]
  rw [appendInt_four _ _ h0 (by omega), appendInt_two _ (absDate t.abs).month (by omega) (by omega),
    appendInt_two _ (absDate t.abs).day (by omega) (by omega), appendInt_two _ _ a1 a2,
    appendInt_two _ _ b1 b2, appendInt_two _ _ c1 c2]
  simp

theorem dateTimeChars_length (t : Time) : (dateTimeChars t).length = 19 := by
  simp [dateTimeChars, fourDigits, twoDigits]

/-! ## The day-offset calculator (C1 to C4) -/

theorem wallDay_of_UTC (t : Time) (h : t.loc = UTC) : wallDay t = utcDay t := by
  simp [wallDay, utcDay, Time.wall, h, UTC]

/-- On timestamps in range, the sign of the result is the sign of the difference
of the calendar dates the two timestamps show, each in its own location,
saturated or not. -/
theorem calculateDaysDifference_sign (t1 t2 : Time) (h1 : t1.inRange) (h2 : t2.inRange) :
    (calculateDaysDifference t1 t2 = 0 ↔ wallDay t2 = wallDay t1) ∧
    (calculateDaysDifference t1 t2 < 0 ↔ wallDay t2 < wallDay t1) ∧
    (0 < calculateDaysDifference t1 t2 ↔ wallDay t1 < wallDay t2) := by
  rw [calculateDaysDifference_closed t1 t2 h1 h2]
  omega

set_option maxRecDepth 8000 in
theorem targetDate_eq : targetDate = ⟨1727913600, 0, UTC⟩ := by
  have h : targetDate.sec = 1727913600 ∧ targetDate.nsec = 0 := by decide
  have hl : targetDate.loc = UTC := rfl
  generalize targetDate = t at h hl
  obtain ⟨s, n, l⟩ := t
  simp only at h hl
  rw [h.1, h.2, hl]

/-- C1 (amended): for timestamps held in the UTC location and in the range of
package time (`Time.inRange`: the seconds fit an int64 and the date is not before
the year -292277022399), with any time of day, whose UTC calendar dates are `k`
days apart, `k` between -106751 and 106751, `calculateDaysDifference d1 d2` is
exactly `k`. -/
theorem c1_days_difference_exact (d1 d2 : Time) (k : Int)
    (h1 : d1.loc = UTC) (h2 : d2.loc = UTC) (r1 : d1.inRange) (r2 : d2.inRange)
    (hk : utcDay d2 - utcDay d1 = k) (hb : -106751 ≤ k ∧ k ≤ 106751) :
    calculateDaysDifference d1 d2 = k := by
  rw [calculateDaysDifference_closed d1 d2 r1 r2, wallDay_of_UTC d1 h1, wallDay_of_UTC d2 h2, hk]
  omega

/-- C1 (witness): 2024-10-03T01:00:00.000000005Z and 2025-10-03T23:59:59.999999999Z
are 365 calendar days apart, and that is the result. -/
theorem c1_days_difference_exact_witness :
    (Time.inRange ⟨1727917200, 5, UTC⟩ ∧ Time.inRange ⟨1759535999, 999999999, UTC⟩ ∧
      utcDay ⟨1759535999, 999999999, UTC⟩ - utcDay ⟨1727917200, 5, UTC⟩ = 365 ∧
      (-106751 : Int) ≤ 365 ∧ (365 : Int) ≤ 106751) ∧
    calculateDaysDifference ⟨1727917200, 5, UTC⟩ ⟨1759535999, 999999999, UTC⟩ = 365 :=
  ⟨⟨by decide, by decide, by decide, by decide, by decide⟩,
    c1_days_difference_exact ⟨1727917200, 5, UTC⟩ ⟨1759535999, 999999999, UTC⟩ 365 rfl rfl
      (by decide) (by decide) (by decide) ⟨by decide, by decide⟩⟩

/-- C1 (counterexample): 1700-01-01T00:00:00Z and 2024-10-03T00:00:00Z are 118614
calendar days apart, but the result is 106751: the difference of the two
midnights does not fit a `time.Duration` and `Sub` returns the largest one. -/
theorem c1_counterexample_far_apart :
    utcDay ⟨1727913600, 0, UTC⟩ - utcDay ⟨-8520336000, 0, UTC⟩ = 118614 ∧
    calculateDaysDifference ⟨-8520336000, 0, UTC⟩ ⟨1727913600, 0, UTC⟩ = 106751 ∧
    calculateDaysDifference ⟨-8520336000, 0, UTC⟩ ⟨1727913600, 0, UTC⟩ ≠ 118614 := by
  have h : calculateDaysDifference ⟨-8520336000, 0, UTC⟩ ⟨1727913600, 0, UTC⟩ = 106751 := by
    rw [calculateDaysDifference_closed _ _ (by decide) (by decide)]; decide
  refine ⟨by decide, h, ?_⟩
  rw [h]; decide

/-- C2 (the code at the failing input): the instant 2024-10-03T16:30:00Z, held in a
location eight hours east of UTC, gives day offset 1 from the target 2024-10-03;
the same instant held in UTC gives 0, which is the difference of the UTC
calendar days. -/
theorem c2_same_instant_two_locations :
    calculateDaysDifference targetDate ⟨1727973000, 0, FixedZone 28800⟩ = 1 ∧
    calculateDaysDifference targetDate
      (Time.In ⟨1727973000, 0, FixedZone 28800⟩ UTC) = 0 ∧
    utcDay ⟨1727973000, 0, FixedZone 28800⟩ - utcDay targetDate = 0 := by
  rw [targetDate_eq]
  refine ⟨?_, ?_, by decide⟩
  · rw [calculateDaysDifference_closed _ _ (by decide) (by decide)]; decide
  · rw [calculateDaysDifference_closed _ _ (by decide) (by decide)]; decide

/-- C3 (the code at the failing input): the instant 2024-10-03T02:00:00Z has the
same UTC calendar date as the target 2024-10-03, yet held in a location five
hours west of UTC it gives the negative day offset -1. -/
theorem c3_same_utc_date_negative_offset :
    utcDay ⟨1727920800, 0, FixedZone (-18000)⟩ = utcDay targetDate ∧
    calculateDaysDifference targetDate ⟨1727920800, 0, FixedZone (-18000)⟩ = -1 := by
  rw [targetDate_eq]
  refine ⟨by decide, ?_⟩
  rw [calculateDaysDifference_closed _ _ (by decide) (by decide)]; decide

/-- C4 (amended): for inputs in the range of package time (`Time.inRange`) whose
calendar dates, each read in the location of its timestamp, are at most 106751
days apart, `diff` is the returned value times 24 hours, and `diff.Hours() / 24`
is that integer, so the conversion to `int` discards nothing. -/
theorem c4_diff_multiple_of_day (t1 t2 : Time) (r1 : t1.inRange) (r2 : t2.inRange)
    (h : -106751 ≤ wallDay t2 - wallDay t1 ∧ wallDay t2 - wallDay t1 ≤ 106751) :
    midnightDiff t1 t2 = calculateDaysDifference t1 t2 * (24 * Hour) ∧
    Duration.Hours (midnightDiff t1 t2) / 24 = (calculateDaysDifference t1 t2 : ℚ) := by
  have hc : calculateDaysDifference t1 t2 = wallDay t2 - wallDay t1 := by
    rw [calculateDaysDifference_closed t1 t2 r1 r2]; omega
  have hd : midnightDiff t1 t2 = (wallDay t2 - wallDay t1) * (24 * Hour) := by
    rw [midnightDiff_eq t1 t2 r1 r2]
    unfold clampDuration
    have hH : (24 * Hour : Int) = 86400000000000 := by decide
    have hmin : minDuration = -9223372036854775808 := by decide
    have hmax : maxDuration = 9223372036854775807 := by decide
    rw [hH, hmin, hmax]
    have a : ¬ ((wallDay t2 - wallDay t1) * 86400000000000 < -9223372036854775808) := by omega
    have b : ¬ (9223372036854775807 < (wallDay t2 - wallDay t1) * 86400000000000) := by omega
    rw [if_neg a, if_neg b]
  refine ⟨by rw [hd, hc], ?_⟩
  rw [hd, hc, hours_of_days]

/-- C4 (witness): 2024-10-03T01:00:00Z and 2025-10-03T23:59:59Z. -/
theorem c4_diff_multiple_of_day_witness :
    (Time.inRange ⟨1727917200, 0, UTC⟩ ∧ Time.inRange ⟨1759535999, 0, UTC⟩ ∧
      -106751 ≤ wallDay ⟨1759535999, 0, UTC⟩ - wallDay ⟨1727917200, 0, UTC⟩ ∧
      wallDay ⟨1759535999, 0, UTC⟩ - wallDay ⟨1727917200, 0, UTC⟩ ≤ 106751) ∧
    midnightDiff ⟨1727917200, 0, UTC⟩ ⟨1759535999, 0, UTC⟩
      = calculateDaysDifference ⟨1727917200, 0, UTC⟩ ⟨1759535999, 0, UTC⟩ * (24 * Hour) ∧
    Duration.Hours (midnightDiff ⟨1727917200, 0, UTC⟩ ⟨1759535999, 0, UTC⟩) / 24
      = (calculateDaysDifference ⟨1727917200, 0, UTC⟩ ⟨1759535999, 0, UTC⟩ : ℚ) :=
  ⟨⟨by decide, by decide, by decide⟩,
    c4_diff_multiple_of_day ⟨1727917200, 0, UTC⟩ ⟨1759535999, 0, UTC⟩ (by decide) (by decide)
      (by decide)⟩

/-- C4 (counterexample): for 1700-01-01T00:00:00Z and 2024-10-03T00:00:00Z the
duration `diff` is 2^63 - 1 nanoseconds, which is not a multiple of 24 hours,
and the returned value times 24 hours is not `diff`. -/
theorem c4_counterexample_saturated :
    midnightDiff ⟨-8520336000, 0, UTC⟩ ⟨1727913600, 0, UTC⟩ = 9223372036854775807 ∧
    midnightDiff ⟨-8520336000, 0, UTC⟩ ⟨1727913600, 0, UTC⟩ % (24 * Hour) ≠ 0 ∧
    calculateDaysDifference ⟨-8520336000, 0, UTC⟩ ⟨1727913600, 0, UTC⟩ * (24 * Hour)
      ≠ midnightDiff ⟨-8520336000, 0, UTC⟩ ⟨1727913600, 0, UTC⟩ := by
  have hd : midnightDiff ⟨-8520336000, 0, UTC⟩ ⟨1727913600, 0, UTC⟩ = 9223372036854775807 := by
    rw [midnightDiff_eq _ _ (by decide) (by decide)]; decide
  have hc : calculateDaysDifference ⟨-8520336000, 0, UTC⟩ ⟨1727913600, 0, UTC⟩ = 106751 := by
    rw [calculateDaysDifference_closed _ _ (by decide) (by decide)]; decide
  rw [hd, hc]
  decide

/-! ## Enumeration, failure isolation, output names (C7, C9, C10) -/

/-- C7: for a directory listing (of names a directory can hold), `main` calls
`processImage` on exactly the entries that are not directories and whose
extension in lower case is ".jpg", ".jpeg" or ".png", on the path made of the
input directory, a separator and the name, and `processedCount` ends as the
number of these entries, whatever answers the calls got (`returning env`: every
`FileEnv`, as in a run whose calls return).  "A.PNG" qualifies; "a.txt" and a
directory "x.png" do not. -/
theorem c7_selection_and_count (Local : Location) (env : String → FileEnv)
    (files : List DirEntry) (hn : ∀ e ∈ files, IsEntryName e.Name) :
    (main Local (returning env) files).calls.map Prod.fst
        = (files.filter qualifies).map (fun e => entryPath e.Name) ∧
    (main Local (returning env) files).processedCount = (files.filter qualifies).length ∧
    qualifies ⟨"A.PNG", false⟩ = true ∧ qualifies ⟨"a.txt", false⟩ = false ∧
    qualifies ⟨"x.png", true⟩ = false := by
  obtain ⟨h1, h2, _⟩ := main_calls Local env files
  have hf : files.filter selects = files.filter qualifies :=
    List.filter_congr (fun e he => selects_eq_qualifies e (hn e he))
  refine ⟨?_, by rw [h2, hf], by decide, by decide, by decide⟩
  rw [h1, hf, List.map_map]
  apply List.map_congr_left
  intro e he
  have he2 : e ∈ files := (List.mem_filter.mp he).1
  simp only [Function.comp, callFor, Join_inputDir _ (hn e he2)]

/-- C7 (witness): a listing of one .png, one .jpg, one .txt and one subdirectory
gives `processedCount = 2`, here on a system where every open fails. -/
theorem c7_selection_and_count_witness :
    (∀ e ∈ sampleListing, IsEntryName e.Name) ∧
    (main UTC (returning failingEnv) sampleListing).processedCount = 2 ∧
    (main UTC (returning failingEnv) sampleListing).calls.map Prod.fst
        = [entryPath "a.png", entryPath "b.jpg"] :=
  ⟨by decide,
    (c7_selection_and_count UTC failingEnv sampleListing (by decide)).2.1.trans (by decide),
    (c7_selection_and_count UTC failingEnv sampleListing (by decide)).1.trans (by decide)⟩

theorem processImage_allOk (Local : Location) (target : Time) (env : FileEnv)
    (filePath : String) (h : env.allOk = true) :
    (processImage Local target env filePath).created = some (outputFilePath filePath) ∧
    (processImage Local target env filePath).encoded = true := by
  obtain ⟨o, s, k, d, c, n⟩ := env
  simp only [FileEnv.allOk, Bool.and_eq_true] at h
  obtain ⟨⟨⟨⟨⟨h1, h2⟩, h3⟩, h4⟩, h5⟩, h6⟩ := h
  cases s with
  | none => simp at h2
  | some fi =>
    cases d with
    | none => simp at h4
    | some bf =>
      obtain ⟨bounds, format⟩ := bf
      subst h1 h3 h5 h6
      simp [processImage]

theorem processImage_decode_fails (Local : Location) (target : Time) (env : FileEnv)
    (filePath : String) (h : env.decode = none) :
    (processImage Local target env filePath).created = none ∧
    (processImage Local target env filePath).encoded = false := by
  obtain ⟨o, s, k, d, c, n⟩ := env
  simp only at h
  subst h
  cases o <;> cases s <;> cases k <;> simp [processImage]

theorem outputFilePath_entry (name : String) (h : IsEntryName name) :
    outputFilePath (Join inputDir name) = outputPathOf name := by
  rw [outputFilePath, Join_inputDir name h, entryPath, Base_dir_entry _ name h,
    Join_outputDir name h, outputPathOf]

theorem outputPathOf_injective (n1 n2 : String) (h : outputPathOf n1 = outputPathOf n2) :
    n1 = n2 := by
  have := congrArg String.data h
  simp only [outputPathOf, List.append_cancel_left_eq, List.cons.injEq, true_and] at this
  exact String.ext this

/-- The calls of a run in which every call returns, entry by entry. -/
theorem mem_calls (Local : Location) (env : String → FileEnv) (files : List DirEntry)
    (hn : ∀ e ∈ files, IsEntryName e.Name) (c : String × Outcome) :
    c ∈ (main Local (returning env) files).calls ↔
      ∃ e ∈ files, qualifies e = true ∧
        c = (entryPath e.Name,
          processImage Local targetDate (env (entryPath e.Name)) (entryPath e.Name)) := by
  obtain ⟨h1, _, _⟩ := main_calls Local env files
  rw [h1, List.mem_map]
  constructor
  · rintro ⟨e, he, rfl⟩
    obtain ⟨he1, he2⟩ := List.mem_filter.mp he
    refine ⟨e, he1, ?_, ?_⟩
    · rw [← selects_eq_qualifies e (hn e he1)]; exact he2
    · simp only [callFor, Join_inputDir _ (hn e he1)]
  · rintro ⟨e, he1, he2, rfl⟩
    refine ⟨e, List.mem_filter.mpr ⟨he1, ?_⟩, ?_⟩
    · rw [selects_eq_qualifies e (hn e he1)]; exact he2
    · simp only [callFor, Join_inputDir _ (hn e he1)]

/-- C9 (amended): in a run in which every call of `processImage` returns, whatever
each file answers to open, stat, seek, decode, create and encode, `main` calls
`processImage` once for every qualifying entry, in the order of the listing, and
reaches its end; the output of every qualifying file whose steps all succeed is
among the files written; the output of a qualifying file whose decoding fails is
not among the files created. -/
theorem c9_file_failures_isolated (Local : Location) (env : String → FileEnv)
    (files : List DirEntry) (hn : ∀ e ∈ files, IsEntryName e.Name) :
    (main Local (returning env) files).calls.map Prod.fst
        = (files.filter qualifies).map (fun e => entryPath e.Name) ∧
    (main Local (returning env) files).died = false ∧
    (∀ e ∈ files, qualifies e = true → (env (entryPath e.Name)).allOk = true →
      outputPathOf e.Name ∈ (main Local (returning env) files).written) ∧
    (∀ e ∈ files, qualifies e = true → (env (entryPath e.Name)).decode = none →
      outputPathOf e.Name ∉ (main Local (returning env) files).created) := by
  obtain ⟨h1, _, h3⟩ := main_calls Local env files
  have hf : files.filter selects = files.filter qualifies :=
    List.filter_congr (fun e he => selects_eq_qualifies e (hn e he))
  refine ⟨?_, h3, ?_, ?_⟩
  · rw [h1, hf, List.map_map]
    apply List.map_congr_left
    intro e he
    have he2 : e ∈ files := (List.mem_filter.mp he).1
    simp only [Function.comp, callFor, Join_inputDir _ (hn e he2)]
  · intro e he hq hok
    obtain ⟨p1, p2⟩ := processImage_allOk Local targetDate _ (entryPath e.Name) hok
    rw [Run.written, List.mem_filterMap]
    refine ⟨_, (mem_calls Local env files hn _).mpr ⟨e, he, hq, rfl⟩, ?_⟩
    simp only [p2, if_true, p1]
    rw [← Join_inputDir _ (hn e he), outputFilePath_entry _ (hn e he)]
  · intro e he hq hdec hmem
    rw [Run.created, List.mem_filterMap] at hmem
    obtain ⟨c, hc, hcr⟩ := hmem
    obtain ⟨e2, he2, hq2, rfl⟩ := (mem_calls Local env files hn c).mp hc
    simp only at hcr
    by_cases hname : e2.Name = e.Name
    · rw [hname, (processImage_decode_fails Local targetDate _ _ hdec).1] at hcr
      exact absurd hcr (by simp)
    · rcases hv : env (entryPath e2.Name) with ⟨o, s, k, d, cr, n⟩
      rw [hv] at hcr
      have hout := outputFilePath_entry e2.Name (hn e2 he2)
      rw [Join_inputDir _ (hn e2 he2)] at hout
      cases o <;> cases s <;> cases k <;> cases d <;> cases cr <;> cases n <;>
        simp [processImage, hout] at hcr <;>
        exact hname (outputPathOf_injective _ _ hcr)

/-- C9 (witness): in the listing of one .png, one .jpg, one .txt and one
subdirectory, with "b.jpg" corrupt, the run reaches its end, "a.png" is written
and no output is created for "b.jpg". -/
theorem c9_file_failures_isolated_witness :
    (∀ e ∈ sampleListing, IsEntryName e.Name) ∧
    (main UTC (returning mixedEnv) sampleListing).died = false ∧
    outputPathOf "a.png" ∈ (main UTC (returning mixedEnv) sampleListing).written ∧
    outputPathOf "b.jpg" ∉ (main UTC (returning mixedEnv) sampleListing).created :=
  ⟨by decide,
    (c9_file_failures_isolated UTC mixedEnv sampleListing (by decide)).2.1,
    (c9_file_failures_isolated UTC mixedEnv sampleListing (by decide)).2.2.1
      ⟨"a.png", false⟩ (by decide) (by decide) (by decide),
    (c9_file_failures_isolated UTC mixedEnv sampleListing (by decide)).2.2.2
      ⟨"b.jpg", false⟩ (by decide) (by decide) (by decide)⟩

/-- C9 (counterexample): the process ends inside the call for "huge.png" (its
decoding runs out of memory); "good.png", which follows it in the listing,
qualifies and all its steps would succeed, yet `processImage` is never called on
it, nothing is written, and the run does not reach its end. -/
theorem c9_counterexample_fatal_decode :
    qualifies ⟨"good.png", false⟩ = true ∧ goodEnv.allOk = true ∧
    fatalFate (entryPath "good.png") = Fate.returns goodEnv ∧
    (main UTC fatalFate fatalListing).died = true ∧
    (main UTC fatalFate fatalListing).calls.map Prod.fst = [] ∧
    (main UTC fatalFate fatalListing).written = [] := by
  have h1 : Join inputDir "huge.png" = "/Users/hankangkang/Downloads/photos/huge.png" := by
    rw [Join_inputDir _ (by decide)]; decide
  have hs : supportedExt (ToLower (Ext "/Users/hankangkang/Downloads/photos/huge.png"))
      = true := by decide
  have hrun : (main UTC fatalFate fatalListing).died = true ∧
      (main UTC fatalFate fatalListing).calls = [] := by
    simp [main, fatalListing, mainStep, h1, hs, fatalFate]
  have hf : fatalFate (entryPath "good.png") = Fate.returns goodEnv := by
    unfold fatalFate
    rw [if_neg (by decide)]
  refine ⟨by decide, by decide, hf, hrun.1, by rw [hrun.2]; rfl, ?_⟩
  rw [Run.written, hrun.2]; rfl

/-- C10: for an entry name of the input directory, the output path is the output
directory joined with that same name, its base name is the name, extension
included, it is the path `processImage` creates when its steps succeed, and
another name gives another output path. -/
theorem c10_output_path_same_name (name : String) (h : IsEntryName name) :
    outputFilePath (Join inputDir name) = Join outputDir name ∧
    Base (outputFilePath (Join inputDir name)) = name ∧
    (∀ (Local : Location) (target : Time) (env : FileEnv), env.allOk = true →
      (processImage Local target env (Join inputDir name)).created
        = some (Join outputDir name)) ∧
    (∀ other : String, IsEntryName other → other ≠ name →
      outputFilePath (Join inputDir other) ≠ outputFilePath (Join inputDir name)) := by
  have key : ∀ n : String, IsEntryName n →
      outputFilePath (Join inputDir n) = ⟨"output_images".data ++ '/' :: n.data⟩ := by
    intro n hn
    rw [outputFilePath, Join_inputDir n hn, entryPath, Base_dir_entry _ n hn, Join_outputDir n hn]
  have first : outputFilePath (Join inputDir name) = Join outputDir name := by
    rw [key name h, Join_outputDir name h]
  refine ⟨first, ?_, ?_, ?_⟩
  · rw [key name h, Base_dir_entry _ name h]
  · intro Local target env hok
    rw [(processImage_allOk Local target env _ hok).1, first]
  · intro other ho hne heq
    rw [key name h, key other ho] at heq
    have := congrArg String.data heq
    simp only [List.append_cancel_left_eq, List.cons.injEq, true_and] at this
    exact hne (String.ext this)

/-- C10 (witness): the entry "IMG_0001.JPG" is written to "output_images/IMG_0001.JPG". -/
theorem c10_output_path_same_name_witness :
    IsEntryName "IMG_0001.JPG" ∧
    outputFilePath (Join inputDir "IMG_0001.JPG") = "output_images/IMG_0001.JPG" :=
  ⟨by decide,
    (c10_output_path_same_name "IMG_0001.JPG" (by decide)).1.trans
      ((Join_outputDir "IMG_0001.JPG" (by decide)).trans (by decide))⟩

/-! ## Timestamp resolution, watermark text, text position (C5, C6, C8) -/

/-- When the platform structure is not available the modification time is used,
with the warning. -/
theorem resolveTimestamp_unavailable (Local : Location) (modTime : Time) :
    (resolveTimestamp Local ⟨modTime, none⟩).timestampToUse = modTime ∧
    (resolveTimestamp Local ⟨modTime, none⟩).timeType = "修改" ∧
    (resolveTimestamp Local ⟨modTime, none⟩).warned = true := by
  have hz : Time.zero.IsZero = true := by decide
  simp [resolveTimestamp, creationTime, hz]

/-- C5 (the code at the failing input): with the platform structure available and
`Birthtimespec` zero (`Sec = 0`, `Nsec = 0`), the timestamp chosen is
`time.Unix(0, 0)`, 1970-01-01T00:00:00Z, with the kind "创建" (created) and no
warning, whatever the modification time: `IsZero` tests for the year 1, not for
the Unix epoch. -/
theorem c5_zero_birthtime_used_as_creation (Local : Location) (modTime : Time) :
    (resolveTimestamp Local ⟨modTime, some ⟨0, 0⟩⟩).timestampToUse = ⟨0, 0, Local⟩ ∧
    (resolveTimestamp Local ⟨modTime, some ⟨0, 0⟩⟩).timeType = "创建" ∧
    (resolveTimestamp Local ⟨modTime, some ⟨0, 0⟩⟩).warned = false := by
  have hw : wrapInt64 unixToInternal - unixToInternal = 0 := by decide
  have hu : Unix Local 0 0 = ⟨0, 0, Local⟩ := by simp [Unix, unixTime, hw]
  have hz : (⟨0, 0, Local⟩ : Time).IsZero = false := by
    simp [Time.IsZero, Time.ext, unixToInternal_val]
  simp [resolveTimestamp, creationTime, hu, hz]

/-- What `processImage` draws when the file opens, its information is read, the
seek succeeds and the image decodes: the text built from the resolved timestamp,
from the start point set for the bounds of the image. -/
theorem processImage_drawn (Local : Location) (target : Time) (env : FileEnv)
    (filePath : String) (fileInfo : FileInfo) (bounds : Rectangle) (format : String)
    (hopen : env.openOk = true) (hstat : env.stat = some fileInfo) (hseek : env.seekOk = true)
    (hdec : env.decode = some (bounds, format)) :
    (processImage Local target env filePath).drawn
      = some (drawerDot bounds,
          watermarkText target (resolveTimestamp Local fileInfo).timestampToUse) := by
  obtain ⟨o, s, k, d, c, n⟩ := env
  simp only at hopen hstat hseek hdec
  subst hopen hstat hseek hdec
  cases c <;> cases n <;> simp [processImage]

/-- C6: when `processImage` gets as far as drawing (the file opens, its
information is read, the seek succeeds, the image decodes) and the reference
timestamp it resolved has a four-digit year, the text it draws is that timestamp
as zero-padded "YYYY-MM-DD HH:MM:SS", 19 characters, then a space, "(", the
decimal representation of `calculateDaysDifference target` of the same timestamp
(minus sign when negative, no padding) and ")". -/
theorem c6_watermark_text_format (Local : Location) (target : Time) (env : FileEnv)
    (filePath : String) (fileInfo : FileInfo) (bounds : Rectangle) (format : String)
    (hopen : env.openOk = true) (hstat : env.stat = some fileInfo) (hseek : env.seekOk = true)
    (hdec : env.decode = some (bounds, format))
    (hy : 1000 ≤ (resolveTimestamp Local fileInfo).timestampToUse.Year ∧
      (resolveTimestamp Local fileInfo).timestampToUse.Year ≤ 9999) :
    (processImage Local target env filePath).drawn
      = some (drawerDot bounds,
          ⟨dateTimeChars (resolveTimestamp Local fileInfo).timestampToUse ++ [' ', '('] ++
            decimalRepr (calculateDaysDifference target
              (resolveTimestamp Local fileInfo).timestampToUse) ++ [')']⟩) ∧
    (dateTimeChars (resolveTimestamp Local fileInfo).timestampToUse).length = 19 := by
  refine ⟨?_, dateTimeChars_length _⟩
  rw [processImage_drawn Local target env filePath fileInfo bounds format hopen hstat hseek hdec]
  simp only [watermarkText, Sprintf, Format_eq _ (by omega) hy.2, fmtInteger_eq]

theorem sampleInfo_resolved :
    (resolveTimestamp (FixedZone 28800) sampleInfo).timestampToUse
      = ⟨1727973000, 0, FixedZone 28800⟩ :=
  (resolveTimestamp_unavailable (FixedZone 28800) ⟨1727973000, 0, FixedZone 28800⟩).1

/-- C6 (witness): a file of 640 by 480 pixels modified at 2024-10-03T16:30:00Z, on
a machine eight hours east of UTC, against the target 2024-10-03: the text drawn
is "2024-10-04 00:30:00 (1)". -/
theorem c6_watermark_text_format_witness :
    (1000 ≤ (resolveTimestamp (FixedZone 28800) sampleInfo).timestampToUse.Year ∧
      (resolveTimestamp (FixedZone 28800) sampleInfo).timestampToUse.Year ≤ 9999) ∧
    (processImage (FixedZone 28800) targetDate goodEnv (entryPath "a.png")).drawn
      = some (⟨6400, 24320⟩, "2024-10-04 00:30:00 (1)") ∧
    (processImage (FixedZone 28800) targetDate goodEnv (entryPath "a.png")).drawn
      = some (drawerDot ⟨⟨0, 0⟩, ⟨640, 480⟩⟩,
          ⟨dateTimeChars (resolveTimestamp (FixedZone 28800) sampleInfo).timestampToUse ++
            [' ', '('] ++
            decimalRepr (calculateDaysDifference targetDate
              (resolveTimestamp (FixedZone 28800) sampleInfo).timestampToUse) ++ [')']⟩) := by
  have hy : 1000 ≤ (resolveTimestamp (FixedZone 28800) sampleInfo).timestampToUse.Year ∧
      (resolveTimestamp (FixedZone 28800) sampleInfo).timestampToUse.Year ≤ 9999 := by
    rw [sampleInfo_resolved]
    set_option maxRecDepth 8000 in decide
  have hcd := calculateDaysDifference_closed ⟨1727913600, 0, UTC⟩
    ⟨1727973000, 0, FixedZone 28800⟩ (by decide) (by decide)
  refine ⟨hy, ?_, (c6_watermark_text_format (FixedZone 28800) targetDate goodEnv
    (entryPath "a.png") sampleInfo ⟨⟨0, 0⟩, ⟨640, 480⟩⟩ "png" rfl rfl rfl rfl hy).1⟩
  rw [processImage_drawn (FixedZone 28800) targetDate goodEnv (entryPath "a.png") sampleInfo
    ⟨⟨0, 0⟩, ⟨640, 480⟩⟩ "png" rfl rfl rfl rfl, sampleInfo_resolved, targetDate_eq]
  simp only [watermarkText, hcd]
  set_option maxRecDepth 8000 in decide

/-- The horizontal start is the constant 100 * 64 whatever the left edge of the
bounds: for bounds from (10, 20) to (110, 220) it is not (10 + 100) * 64. -/
theorem drawerDot_ignores_left_edge :
    (drawerDot ⟨⟨10, 20⟩, ⟨110, 220⟩⟩).X = 100 * 64 ∧
    (drawerDot ⟨⟨10, 20⟩, ⟨110, 220⟩⟩).X ≠ (10 + 100) * 64 := by
  decide

/-- C8 (amended): when `processImage` gets as far as drawing, on a canvas whose
bottom edge `Max.Y` lies below 2^25 + 100 (and not below 100 - 2^25), the text
starts at x = 100 pixels, which is the left edge plus the inset of 100 pixels
when the left edge is at 0, and its baseline lies 100 pixels above the bottom
edge, which is the height minus 100 pixels when the top edge is at 0; both
times 64. -/
theorem c8_text_start_point (Local : Location) (target : Time) (env : FileEnv)
    (filePath : String) (fileInfo : FileInfo) (bounds : Rectangle) (format : String)
    (hopen : env.openOk = true) (hstat : env.stat = some fileInfo) (hseek : env.seekOk = true)
    (hdec : env.decode = some (bounds, format))
    (h0 : 100 - 2 ^ 25 ≤ bounds.Max.Y) (h1 : bounds.Max.Y < 2 ^ 25 + 100) :
    (processImage Local target env filePath).drawn.map Prod.fst
      = some ⟨100 * 64, (bounds.Max.Y - 100) * 64⟩ ∧
    (bounds.Min.X = 0 → (100 : Int) * 64 = (bounds.Min.X + 100) * 64) ∧
    (bounds.Min.Y = 0 →
      (bounds.Max.Y - 100) * 64 = ((bounds.Max.Y - bounds.Min.Y) - 100) * 64) := by
  refine ⟨?_, ?_, ?_⟩
  · rw [processImage_drawn Local target env filePath fileInfo bounds format hopen hstat hseek
      hdec]
    simp only [Option.map_some', drawerDot, toInt32, watermarkOffsetX, watermarkOffsetY,
      Option.some.injEq, Point26_6.mk.injEq]
    norm_num at h0 h1 ⊢
    omega
  · intro h; rw [h]; norm_num
  · intro h; rw [h]; norm_num

/-- C8 (witness): a canvas of 640 by 480 pixels: the text starts at (100, 380),
times 64. -/
theorem c8_text_start_point_witness :
    ((100 : Int) - 2 ^ 25 ≤ 480 ∧ (480 : Int) < 2 ^ 25 + 100) ∧
    (processImage UTC targetDate goodEnv (entryPath "a.png")).drawn.map Prod.fst
      = some ⟨100 * 64, (480 - 100) * 64⟩ :=
  ⟨⟨by decide, by decide⟩,
    (c8_text_start_point UTC targetDate goodEnv (entryPath "a.png") sampleInfo
      ⟨⟨0, 0⟩, ⟨640, 480⟩⟩ "png" rfl rfl rfl rfl (by decide) (by decide)).1⟩

/-- C8 (counterexample): a canvas of 1 by 33554532 pixels with its corner at
(0, 0), every step succeeding.  The height minus 100 pixels, times 64, is 2^31,
which a `fixed.Int26_6` (an int32) cannot hold: the baseline `processImage`
sets is -2^31. -/
theorem c8_counterexample_tall_canvas :
    tallEnv.decode = some (⟨⟨0, 0⟩, ⟨1, 33554532⟩⟩, "png") ∧ tallEnv.allOk = true ∧
    (processImage UTC targetDate tallEnv (entryPath "tall.png")).drawn.map Prod.fst
      = some ⟨6400, -2147483648⟩ ∧
    ((33554532 : Int) - 0 - 100) * 64 = 2147483648 := by
  refine ⟨rfl, by decide, ?_, by decide⟩
  rw [processImage_drawn UTC targetDate tallEnv (entryPath "tall.png") sampleInfo
    ⟨⟨0, 0⟩, ⟨1, 33554532⟩⟩ "png" rfl rfl rfl rfl]
  decide


end PhotoWatermark
